import Mathlib

/-
Verification development for the traingraph repository.

The JavaScript sources are shallowly embedded: JS objects and Maps become
insertion-ordered association lists (`List (String × β)`), JS Sets become
insertion-ordered duplicate-free `List String`, JS numbers become `Int`
(graph-core code, which only ever holds integers) or `ℚ` (the snake engine,
which works in unit [0,1] coordinates; we use exact rationals for the
algorithmic content).  A JS `throw` becomes an `Except.error`; functions that
may have mutated state before throwing return the (partially mutated) state
alongside the `Except` value.  `while` loops are modelled by fuel recursion,
with fuel chosen from the same quantity that bounds the JS loop.
-/

set_option maxRecDepth 10000

namespace TG

/-- Lookup in an insertion-ordered association list (JS object / Map read). -/
def alGet [DecidableEq α] (k : α) : List (α × β) → Option β
  | [] => none
  | (k', v) :: rest => if k' = k then some v else alGet k rest

/-- Insert-or-replace (JS `obj[k] = v` / `map.set(k, v)`): replaces in place,
or appends a new key at the end, preserving insertion order. -/
def alSet [DecidableEq α] (k : α) (v : β) : List (α × β) → List (α × β)
  | [] => [(k, v)]
  | (k', v') :: rest => if k' = k then (k', v) :: rest else (k', v') :: alSet k v rest

/-- Update the value at a key in place, if present. -/
def alUpdate [DecidableEq α] (k : α) (f : β → β) : List (α × β) → List (α × β)
  | [] => []
  | (k', v') :: rest => if k' = k then (k', f v') :: rest else (k', v') :: alUpdate k f rest

/-- Key-presence test (JS `k in obj` / `map.has(k)`). -/
def alHas [DecidableEq α] (k : α) (l : List (α × β)) : Bool :=
  (alGet k l).isSome

/-- Remove a key (JS `delete obj[k]` / `map.delete(k)`). -/
def alDelete [DecidableEq α] (k : α) : List (α × β) → List (α × β)
  | [] => []
  | (k', v') :: rest => if k' = k then rest else (k', v') :: alDelete k rest

/-- JS `Set.add`: appends unless already present (insertion-ordered set). -/
def setAdd [DecidableEq α] (x : α) (l : List α) : List α :=
  if l.contains x then l else l ++ [x]

/-- JS `Set.delete`: removes the element, preserving the order of the rest. -/
def setDelete [DecidableEq α] (x : α) (l : List α) : List α :=
  l.filter (· ≠ x)

/-- JS truncation toward zero (the inner part of `~~x`). -/
def jsTrunc (q : ℚ) : Int :=
  if 0 ≤ q then ⌊q⌋ else ⌈q⌉

/-- JS `~~x`: ToInt32 of the truncation (wraps into [-2^31, 2^31)). -/
def jsToInt32 (q : ℚ) : Int :=
  (jsTrunc q + 2 ^ 31) % 2 ^ 32 - 2 ^ 31

/-! ## GraphSimple, from src/unnamed/part_000

The revision of the simple graph that carries reservations ("snakes") directly
on the node/reserve tables: `NodeData = {conn, reserve}` where `conn` maps a
neighbouring node to `{edge: {length}, through: Set}`, and
`ReserveData = {length, node, headOffset, tailOffset}`.  The `res` field of
`EdgeData` in the source is initialised to `[]` and never read or written
afterwards, so it is omitted; edge objects are shared between the two `conn`
entries in the source but are immutable after creation, so they are embedded
by value. -/

namespace GraphSimple

/-- One entry of `NodeData.conn`: the shared edge's length plus the `through`
set of the junction table. -/
structure ConnData where
  length : Int
  through : List String
deriving Repr, DecidableEq

/-- `NodeData` from part_000. -/
structure NodeData where
  conn : List (String × ConnData)
  reserve : List String
deriving Repr, DecidableEq

/-- `ReserveData` from part_000. -/
structure ReserveData where
  length : Int
  node : List String
  headOffset : Int
  tailOffset : Int
deriving Repr, DecidableEq

/-- The private state of a `GraphSimple` instance: `#byNode` and `#byReserve`. -/
structure State where
  byNode : List (String × NodeData)
  byReserve : List (String × ReserveData)
deriving Repr, DecidableEq

/-- The empty graph (a freshly constructed `GraphSimple`). -/
def State.empty : State := { byNode := [], byReserve := [] }

/-- `GraphSimple.addNode` (explicit id; the source's default id generator is
an external counter). -/
def addNode (st : State) (id : String) : Except String State :=
  if alHas id st.byNode then
    .error s!"can't add duplicate node: {id}"
  else
    .ok { st with byNode := alSet id { conn := [], reserve := [] } st.byNode }

/-- `GraphSimple.connect`.  All throws precede the mutation. -/
def connect (st : State) (a b : String) (length : Int) : Except String State :=
  if a = b then
    .error "cannot connect same node"
  else
    match alGet a st.byNode, alGet b st.byNode with
    | some dataA, some dataB =>
      if alHas b dataA.conn ∨ alHas a dataB.conn then
        .error "nodes previously connected"
      else
        let edge : ConnData := { length := length, through := [] }
        let dataA' := { dataA with conn := alSet b edge dataA.conn }
        let byNode := alSet a dataA' st.byNode
        let dataB' := (alGet b byNode).getD dataB
        let dataB'' := { dataB' with conn := alSet a edge dataB'.conn }
        .ok { st with byNode := alSet b dataB'' byNode }
    | none, _ => .error s!"missing data for node: {a}"
    | _, none => .error s!"missing data for node: {b}"

/-- `GraphSimple.join`: requires `a ≠ via ≠ b` and both connected to `via`;
adds each side to the other's `through` set. -/
def join (st : State) (a via b : String) : Except String (Bool × State) :=
  if a = b ∨ a = via ∨ via = b then
    .error "cannot join same nodes"
  else
    match alGet via st.byNode with
    | none => .error s!"missing data for node: {via}"
    | some dataVia =>
      match alGet a dataVia.conn, alGet b dataVia.conn with
      | some connA, some connB =>
        let change := ¬ connA.through.contains b
        let connA' := { connA with through := setAdd b connA.through }
        let conn := alSet a connA' dataVia.conn
        let connB' := (alGet b conn).getD connB
        let connB'' := { connB' with through := setAdd a connB'.through }
        let conn := alSet b connB'' conn
        let dataVia' := { dataVia with conn := conn }
        .ok (change, { st with byNode := alSet via dataVia' st.byNode })
      | _, _ => .error "nodes not already connected"

/-- `GraphSimple.addReserve` (explicit id): a zero-length reservation sitting
on `node`, which is immediately added to the node's occupancy set. -/
def addReserve (st : State) (node : String) (id : String) : Except String State :=
  if alHas id st.byReserve then
    .error s!"can't add duplicate reservation: {id}"
  else
    match alGet node st.byNode with
    | none => .error s!"missing data for node: {node}"
    | some nodeData =>
      let nodeData' := { nodeData with reserve := setAdd id nodeData.reserve }
      let st := { st with byNode := alSet node nodeData' st.byNode }
      let reserveData : ReserveData := { length := 0, node := [node], headOffset := 0, tailOffset := 0 }
      .ok { st with byReserve := alSet id reserveData st.byReserve }

/-- `GraphSimple.#growPart`.  Returns the step grown, the new state, and the
list of `(node, options)` arguments at which the source would consult the
caller's `callback` (that call site executes only when `options.length > 1`). -/
def growPart (st : State) (r : String) (e : Int) (byv : Int)
    (callback : Option (String → List String → String)) :
    Except String Int × State × List (String × List String) :=
  match alGet r st.byReserve with
  | none => (.error s!"missing data for reserve: {r}", st, [])
  | some rd =>
    if e = 1 ∧ rd.headOffset ≠ 0 then
      let g := min rd.headOffset byv
      let rd' := { rd with headOffset := rd.headOffset - g }
      (.ok g, { st with byReserve := alSet r rd' st.byReserve }, [])
    else if e = -1 ∧ rd.tailOffset ≠ 0 then
      let g := min rd.tailOffset byv
      let rd' := { rd with tailOffset := rd.tailOffset - g }
      (.ok g, { st with byReserve := alSet r rd' st.byReserve }, [])
    else
      let np : Except String (String × String) :=
        if rd.node.length = 1 then .ok (rd.node.headD "", "")
        else if e = 1 then .ok (rd.node.headD "", (rd.node[1]?).getD "")
        else if e = -1 then .ok (rd.node.getLastD "", (rd.node[rd.node.length - 2]?).getD "")
        else .error "unknown"
      match np with
      | .error m => (.error m, st, [])
      | .ok (node, priorNode) =>
        match alGet node st.byNode with
        | none => (.error s!"missing data for node: {node}", st, [])
        | some nd =>
          let options0 := nd.conn.map Prod.fst
          let options :=
            if priorNode ≠ "" then
              options0.filter (fun o =>
                match alGet o nd.conn with
                | some c => c.through.contains priorNode
                | none => false)
            else options0
          let pick :=
            if options.length > 1 then
              ((match callback with
                | some f => f node options
                | none => ""), [(node, options)])
            else (options.headD "", ([] : List (String × List String)))
          match alGet pick.1 nd.conn with
          | none => (.ok 0, st, pick.2)
          | some conn =>
            let g := min byv conn.length
            if e = 1 then
              let rd' := { rd with node := pick.1 :: rd.node, headOffset := conn.length - g }
              (.ok g, { st with byReserve := alSet r rd' st.byReserve }, pick.2)
            else
              let rd' := { rd with node := rd.node ++ [pick.1], tailOffset := conn.length - g }
              (.ok g, { st with byReserve := alSet r rd' st.byReserve }, pick.2)

/-- The `while (by > 0)` loop of `GraphSimple.grow`.  Each continuing
iteration consumes at least one unit, so fuel `by + 1` is always enough;
returns the remaining `by` on exit. -/
def growLoop (r : String) (e : Int) (callback : Option (String → List String → String)) :
    Nat → State → Int → Except String Int × State × List (String × List String)
  | 0, st, _ => (.error "internal: out of fuel", st, [])
  | fuel + 1, st, byv =>
    if byv ≤ 0 then (.ok byv, st, [])
    else
      match growPart st r e byv callback with
      | (.error m, st', cs) => (.error m, st', cs)
      | (.ok step, st', cs) =>
        if step = 0 then (.ok byv, st', cs)
        else
          let byv' := byv - step
          match alGet r st'.byReserve with
          | none => (.error s!"missing data for reserve: {r}", st', cs)
          | some rd =>
            let front : Option String :=
              if e = 1 ∧ rd.headOffset = 0 then some (rd.node.headD "")
              else if e = -1 ∧ rd.tailOffset = 0 then some (rd.node.getLastD "")
              else none
            match front with
            | none =>
              let next := growLoop r e callback fuel st' byv'
              (next.1, next.2.1, cs ++ next.2.2)
            | some fn =>
              match alGet fn st'.byNode with
              | none => (.error s!"missing data for node: {fn}", st', cs)
              | some nd =>
                let nd' := { nd with reserve := setAdd r nd.reserve }
                let st2 := { st' with byNode := alSet fn nd' st'.byNode }
                let next := growLoop r e callback fuel st2 byv'
                (next.1, next.2.1, cs ++ next.2.2)

/-- `GraphSimple.grow` on an integral `by` (after the input guard). -/
def growInt (st : State) (r : String) (e : Int) (byv : Int)
    (callback : Option (String → List String → String)) :
    Except String Int × State × List (String × List String) :=
  match alGet r st.byReserve with
  | none => (.error s!"missing data for reserve: {r}", st, [])
  | some _ =>
    let total := byv
    match growLoop r e callback (byv.toNat + 1) st byv with
    | (.error m, st', cs) => (.error m, st', cs)
    | (.ok rem, st', cs) =>
      let growth := total - rem
      if growth = 0 then (.ok 0, st', cs)
      else
        match alGet r st'.byReserve with
        | none => (.error s!"missing data for reserve: {r}", st', cs)
        | some rd =>
          (.ok growth, { st' with byReserve := alSet r { rd with length := rd.length + growth } st'.byReserve }, cs)

/-- `GraphSimple.grow`: the guard
`by !== ~~by || by < 0 || Math.sign(end) !== end` throws before anything else
runs; afterwards `by` is a non-negative int32 and the integer loop runs. -/
def grow (st : State) (r : String) (e : Int) (byv : ℚ)
    (callback : Option (String → List String → String)) :
    Except String Int × State × List (String × List String) :=
  if byv ≠ (jsToInt32 byv : ℚ) ∨ byv < 0 ∨ Int.sign e ≠ e then
    (.error "must grow by +ve integer", st, [])
  else
    growInt st r e byv.num callback

/-- `GraphSimple.#shrinkPart`. -/
def shrinkPart (st : State) (r : String) (e : Int) (byv : Int) :
    Except String Int × State :=
  match alGet r st.byReserve with
  | none => (.error s!"missing data for reserve: {r}", st)
  | some rd =>
    if rd.node.length = 1 then
      (.error "internal; should not try to shrink zero-sized reservation", st)
    else if e = 1 then
      let front := rd.node.headD ""
      let prior := (rd.node[1]?).getD ""
      match (alGet front st.byNode).bind (fun nd => alGet prior nd.conn) with
      | none => (.error "internal: can't shrink, missing edge", st)
      | some conn =>
        let priorOffset := if rd.node.length = 2 then rd.tailOffset else 0
        let edgeUse := conn.length - (rd.headOffset + priorOffset)
        let s := min edgeUse byv
        let ho := rd.headOffset + s
        let rd' := if ho = conn.length
          then { rd with node := rd.node.tail, headOffset := 0 }
          else { rd with headOffset := ho }
        (.ok s, { st with byReserve := alSet r rd' st.byReserve })
    else if e = -1 then
      let front := rd.node.getLastD ""
      let prior := (rd.node[rd.node.length - 2]?).getD ""
      match (alGet front st.byNode).bind (fun nd => alGet prior nd.conn) with
      | none => (.error "internal: can't shrink, missing edge", st)
      | some conn =>
        let priorOffset := if rd.node.length = 2 then rd.headOffset else 0
        let edgeUse := conn.length - (rd.tailOffset + priorOffset)
        let s := min edgeUse byv
        let to' := rd.tailOffset + s
        let rd' := if to' = conn.length
          then { rd with node := rd.node.dropLast, tailOffset := 0 }
          else { rd with tailOffset := to' }
        (.ok s, { st with byReserve := alSet r rd' st.byReserve })
    else (.error "internal: should not get here", st)

/-- The `while (by > 0)` loop of `GraphSimple.shrink`: occupancy release with
the self-overlap scan, then one `#shrinkPart` step. -/
def shrinkLoop (r : String) (e : Int) : Nat → State → Int → Except String Unit × State
  | 0, st, _ => (.error "internal: out of fuel", st)
  | fuel + 1, st, byv =>
    if byv ≤ 0 then (.ok (), st)
    else
      match alGet r st.byReserve with
      | none => (.error s!"missing data for reserve: {r}", st)
      | some rd =>
        let len := rd.node.length
        let fn : String :=
          if e = 1 ∧ rd.headOffset = 0 then
            let f := rd.node.headD ""
            if (rd.node.drop 3).contains f then "" else f
          else if e = -1 ∧ rd.tailOffset = 0 then
            let f := rd.node.getLastD ""
            if (rd.node.take (len - 3)).contains f then "" else f
          else ""
        let step1 : Except String State :=
          if fn ≠ "" then
            match alGet fn st.byNode with
            | none => .error s!"missing data for node: {fn}"
            | some nd =>
              .ok { st with byNode := alSet fn { nd with reserve := setDelete r nd.reserve } st.byNode }
          else .ok st
        match step1 with
        | .error m => (.error m, st)
        | .ok st1 =>
          match shrinkPart st1 r e byv with
          | (.error m, st2) => (.error m, st2)
          | (.ok step, st2) =>
            if step = 0 then (.error s!"unable to shrink by: {byv}", st2)
            else shrinkLoop r e fuel st2 (byv - step)

/-- `GraphSimple.shrink` on an integral `by` (after the input guard). -/
def shrinkInt (st : State) (r : String) (e : Int) (byv : Int) :
    Except String Int × State :=
  match alGet r st.byReserve with
  | none => (.error s!"missing data for reserve: {r}", st)
  | some rd =>
    let total := min rd.length byv
    if total = 0 then (.ok 0, st)
    else
      match shrinkLoop r e (total.toNat + 1) st total with
      | (.error m, st') => (.error m, st')
      | (.ok _, st') =>
        match alGet r st'.byReserve with
        | none => (.error s!"missing data for reserve: {r}", st')
        | some rd' =>
          (.ok total, { st' with byReserve := alSet r { rd' with length := rd'.length - total } st'.byReserve })

/-- `GraphSimple.shrink`: same input guard as `grow`, then the integer loop. -/
def shrink (st : State) (r : String) (e : Int) (byv : ℚ) :
    Except String Int × State :=
  if byv ≠ (jsToInt32 byv : ℚ) ∨ byv < 0 ∨ Int.sign e ≠ e then
    (.error "must shrink by +ve integer", st)
  else
    shrinkInt st r e byv.num

end GraphSimple

/-! ### Concrete scenarios over GraphSimple -/

open GraphSimple in
/-- Scenario 1 setup: vertices `a`, `b`; `connect(a, b, 100)`; `add_snake(a) → s`. -/
def c1Setup : Except String GraphSimple.State := do
  let st ← addNode State.empty "a"
  let st ← addNode st "b"
  let st ← connect st "a" "b" 100
  addReserve st "a" "s"

open GraphSimple in
/-- One grow step of scenario 1 (no oracle supplied, as in the spec scenario). -/
def c1Grow (p : Except String GraphSimple.State) (e : Int) (b : ℚ) :
    Except String (Int × GraphSimple.State) := do
  let st ← p
  match grow st "s" e b none with
  | (.ok n, st', _) => pure (n, st')
  | (.error m, _, _) => .error m

open GraphSimple in
/-- One shrink step of scenario 1. -/
def c1Shrink (p : Except String (Int × GraphSimple.State)) (e : Int) (b : ℚ) :
    Except String (Int × GraphSimple.State) := do
  let (_, st) ← p
  match shrink st "s" e b with
  | (.ok n, st') => pure (n, st')
  | (.error m, _) => .error m

/-- The four calls of scenario 1, keeping every return value and state. -/
def c1Run : Except String ((Int × Int × Int × Int) ×
    GraphSimple.State × GraphSimple.State × GraphSimple.State × GraphSimple.State) := do
  let (n1, s1) ← c1Grow c1Setup 1 10
  let (n2, s2) ← c1Grow (pure s1) 1 90
  let (n3, s3) ← c1Shrink (pure (n2, s2)) (-1) 80
  let (n4, s4) ← c1Shrink (pure (n3, s3)) 1 25
  pure ((n1, n2, n3, n4), s1, s2, s3, s4)

open GraphSimple in
/-- Scenario 5 setup: `connect(a,m,10)`, `connect(m,b,10)`, `connect(m,c,10)`,
`join(a,m,b)` (but not `join(a,m,c)`), and a snake `s` at `a`. -/
def c2Setup : Except String GraphSimple.State := do
  let st ← addNode State.empty "a"
  let st ← addNode st "m"
  let st ← addNode st "b"
  let st ← addNode st "c"
  let st ← connect st "a" "m" 10
  let st ← connect st "m" "b" 10
  let st ← connect st "m" "c" 10
  let (_, st) ← join st "a" "m" "b"
  addReserve st "a" "s"

open GraphSimple in
/-- Scenario 5: grow the snake from `a` by 15 with oracle `f`, returning the
amount grown, the final state, and the oracle invocations performed. -/
def c2Run (f : String → List String → String) :
    Except String (Int × GraphSimple.State × List (String × List String)) := do
  let st ← c2Setup
  match grow st "s" 1 15 (some f) with
  | (.ok n, st', cs) => pure (n, st', cs)
  | (.error m, _, _) => .error m

/-- A concrete oracle for the scenario-5 counterexample: always answers `b`,
so if the engine consulted it at `m` with candidates `[b]` it would succeed. -/
def c2Oracle : String → List String → String := fun _ _ => "b"

/-- JS `Array.prototype.indexOf`: first index, or -1. -/
def jsIndexOf [BEq α] : List α → α → Int
  | [], _ => -1
  | y :: rest, x =>
    if y == x then 0
    else
      let r := jsIndexOf rest x
      if r = -1 then -1 else r + 1

/-- JS `Array.prototype.lastIndexOf`: last index, or -1. -/
def jsLastIndexOf [BEq α] (l : List α) (x : α) : Int :=
  let r := jsIndexOf l.reverse x
  if r = -1 then -1 else (l.length : Int) - 1 - r

/-- JS indexed read `arr[i]`: `none` models `undefined`. -/
def jsGet (l : List α) (i : Int) : Option α :=
  if h : 0 ≤ i ∧ i.toNat < l.length then some (l.get ⟨i.toNat, h.2⟩) else none

/-- JS `arr.splice(i, 0, x)`. -/
def spliceInsert (l : List α) (i : Nat) (x : α) : List α :=
  l.take i ++ x :: l.drop i

/-- JS `arr.splice(i, 1)`. -/
def spliceRemove (l : List α) (i : Nat) : List α :=
  l.take i ++ l.drop (i + 1)

/-! ## GraphSimple, from src/src/graph2.js

The later, reservation-free revision of the simple graph: `NodeData` is
`{id, conn}` with `through` stored as an array.  Only the pieces the claims
need are embedded: `addNode`, `connect`, `split`.  The source's
`commonRemoveEdge !== connB.edge` check compares object identity of the shared
edge; in this value embedding the two `conn` entries always hold equal edge
values by construction, so the check is modelled as a value comparison. -/

namespace Graph2

/-- One entry of `conn` in graph2.js: `{edge: {length}, through: string[]}`. -/
structure ConnData where
  length : Int
  through : List String
deriving Repr, DecidableEq

/-- `NodeData` from graph2.js (the `id` field always equals the key). -/
structure NodeData where
  id : String
  conn : List (String × ConnData)
deriving Repr, DecidableEq

/-- The `#byNode` state of a graph2.js `GraphSimple`. -/
structure State where
  byNode : List (String × NodeData)
deriving Repr, DecidableEq

/-- The empty graph2.js graph. -/
def State.empty : State := { byNode := [] }

/-- graph2.js `addNode` (explicit id). -/
def addNode (st : State) (id : String) : Except String State :=
  if alHas id st.byNode then
    .error s!"can't add duplicate node: {id}"
  else
    .ok { byNode := alSet id { id := id, conn := [] } st.byNode }

/-- graph2.js `connect`. -/
def connect (st : State) (a b : String) (length : Int) : Except String State :=
  if a = b then
    .error "cannot connect same node"
  else
    match alGet a st.byNode, alGet b st.byNode with
    | some dataA, some dataB =>
      if alHas b dataA.conn ∨ alHas a dataB.conn then
        .error "nodes previously connected"
      else
        let edge : ConnData := { length := length, through := [] }
        let dataA' := { dataA with conn := alSet b edge dataA.conn }
        let byNode := alSet a dataA' st.byNode
        let dataB' := (alGet b byNode).getD dataB
        let dataB'' := { dataB' with conn := alSet a edge dataB'.conn }
        .ok { byNode := alSet b dataB'' byNode }
    | none, _ => .error s!"missing data for node: {a}"
    | _, none => .error s!"missing data for node: {b}"

/-- graph2.js `split`, statement for statement.  Note the negative-offset
normalisation `along = commonRemoveEdge.length - along`, which for negative
`along` yields `length + |along|`, and the subsequent range check. -/
def split (st : State) (a via b : String) (along : Int) : Except String State :=
  if along = 0 then
    .error "must split at non-zero integer value along line"
  else if a = b ∨ a = via ∨ via = b then
    .error "cannot split same nodes"
  else
    match alGet a st.byNode, alGet b st.byNode, alGet via st.byNode with
    | some dataA, some dataB, some dataVia =>
      if alHas via dataA.conn ∨ alHas via dataB.conn then
        .error s!"can't split connection, side node already connected to: {via}"
      else
        match alGet b dataA.conn, alGet a dataB.conn with
        | some connA, some connB =>
          if connA ≠ connB then
            .error "internal: edge isn't common"
          else
            let along := if along < 0 then connA.length - along else along
            if along ≥ connA.length ∨ along ≤ 0 then
              .error s!"cannot split along edge ({along} / {connA.length})"
            else
              let dataA := { dataA with conn := alDelete b dataA.conn }
              let dataB := { dataB with conn := alDelete a dataB.conn }
              let edgeA : ConnData := { length := along, through := [] }
              let edgeB : ConnData := { length := connA.length - along, through := [] }
              let rewriteA := fun (c : ConnData) =>
                { c with through := c.through.map (fun other => if other = b then via else other) }
              let rewriteB := fun (c : ConnData) =>
                { c with through := c.through.map (fun other => if other = a then via else other) }
              let connsA := dataA.conn.map (fun (p : String × ConnData) => (p.1, rewriteA p.2))
              let connsB := dataB.conn.map (fun (p : String × ConnData) => (p.1, rewriteB p.2))
              let dataA := { dataA with conn := connsA }
              let dataB := { dataB with conn := connsB }
              let dataA := { dataA with conn := alSet via { edgeA with through := connA.through } dataA.conn }
              let dataB := { dataB with conn := alSet via { edgeB with through := connA.through } dataB.conn }
              let dataVia := { dataVia with conn := alSet a { edgeA with through := [b] } dataVia.conn }
              let dataVia := { dataVia with conn := alSet b { edgeB with through := [a] } dataVia.conn }
              let byNode := alSet a dataA st.byNode
              let byNode := alSet b dataB byNode
              .ok { byNode := alSet via dataVia byNode }
        | _, _ => .error "nodes not already joined"
    | none, _, _ => .error s!"missing data for node: {a}"
    | _, none, _ => .error s!"missing data for node: {b}"
    | _, _, none => .error s!"missing data for node: {via}"

end Graph2

/-! ## Graph, from src/src/graph.js

The canonical graph core: edges carry an ordered `virt` position list and the
parallel `node` list, nodes carry `holder` sets and canonical `pairs`.  Node
objects are shared by reference in the source; since node ids are unique and
`#byNode` is the single table of them, references are embedded as ids.
`nextGlobalId` is embedded as a per-state counter (the source's base-36
rendering of the counter is replaced by decimal, the ids being opaque). -/

namespace Graph

/-- `PairSide` from graph.js. -/
structure PairSide where
  edge : String
  dir : Int
deriving Repr, DecidableEq

/-- `Node` from graph.js. -/
structure Node where
  id : String
  holder : List String
  pairs : List (PairSide × PairSide)
deriving Repr, DecidableEq

/-- `EdgeData` from graph.js. -/
structure EdgeData where
  id : String
  length : Int
  virt : List Int
  node : List String
  other : List String
deriving Repr, DecidableEq

/-- `types.EdgeDetails`. -/
structure EdgeDetails where
  lowNode : String
  highNode : String
  length : Int
  edge : String
  other : List String
deriving Repr, DecidableEq

/-- `types.AtNode` (an empty `node` string models the blank/absent node). -/
structure AtNode where
  edge : String
  atv : Int
  node : String
  priorNode : String
  afterNode : String
deriving Repr, DecidableEq

/-- The private state of a `Graph`: `#byEdge`, `#byNode`, and the ambient id
counter. -/
structure State where
  byEdge : List (String × EdgeData)
  byNode : List (String × Node)
  nextId : Nat
deriving Repr, DecidableEq

/-- A freshly constructed `Graph` (counter at 0). -/
def State.empty : State := { byEdge := [], byNode := [], nextId := 0 }

/-- `nextGlobalId`: pre-increment, then prefix. -/
def nextGlobalId (st : State) (pfx : String) : String × State :=
  (pfx ++ toString (st.nextId + 1), { st with nextId := st.nextId + 1 })

/-- `inlineLessSort` from helper/swap.js, at the 2-element arrays used by the
call sites: a stable sort by the comparator derived from `less`, so the pair
keeps its order unless `less b a` strictly holds. -/
def inlineLessSort (less : α → α → Bool) (a b : α) : α × α :=
  if less a b then (a, b)
  else if less b a then (b, a)
  else (a, b)

/-- `Graph.add`: a fresh edge of the given length with fresh low/high nodes. -/
def add (st : State) (length : Int) : Except String (EdgeDetails × State) :=
  if length ≤ 0 then
    .error s!"can't add zero length line: {length}"
  else
    let (id, st) := nextGlobalId st "E"
    let (lowId, st) := nextGlobalId st "N"
    let (highId, st) := nextGlobalId st "N"
    let low : Node := { id := lowId, holder := [id], pairs := [] }
    let high : Node := { id := highId, holder := [id], pairs := [] }
    let st := { st with byNode := alSet highId high (alSet lowId low st.byNode) }
    let data : EdgeData := { id := id, length := length, virt := [0, length], node := [lowId, highId], other := [] }
    let st := { st with byEdge := alSet id data st.byEdge }
    .ok ({ lowNode := lowId, highNode := highId, length := length, edge := id, other := [] }, st)

/-- `Graph.edgeDetails`. -/
def edgeDetails (st : State) (edge : String) : Except String EdgeDetails :=
  match alGet edge st.byEdge with
  | none => .error "missing data"
  | some data =>
    .ok { lowNode := data.node.headD "", highNode := data.node.getLastD "",
          length := data.length, edge := edge, other := data.other }

/-- The `dir = 0` scan of `#internalFindNodeIndex`: nearest node by absolute
distance, preferring the lower side, with the short-circuit on worsening; the
fuel argument (always passed as `virt.length`, one more than the loop can
ever iterate) keeps the recursion structural. -/
def findNearestLoop (atv : Int) (virt : List Int) :
    Nat → Nat → Int → Int → Int
  | 0, _, bestIndex, _ => bestIndex
  | fuel + 1, i, bestIndex, bestDistance =>
    if i < virt.length - 1 then
      let check := |atv - ((jsGet virt (i : Int)).getD 0)|
      if bestIndex = -1 ∨ check < bestDistance then
        findNearestLoop atv virt fuel (i + 1) (i : Int) check
      else if check > bestDistance then bestIndex
      else findNearestLoop atv virt fuel (i + 1) bestIndex bestDistance
    else bestIndex

/-- `Graph.#internalFindNodeIndex`. -/
def internalFindNodeIndex (st : State) (edge : String) (atv : Int) (dir : Int) :
    Except String Int :=
  match alGet edge st.byEdge with
  | none => .error "missing data"
  | some data =>
    let isEdgeFind := (atv ≤ 0 ∧ dir ≤ 0) ∨ (atv < 0 ∧ dir > 0)
      ∨ (atv ≥ data.length ∧ dir ≥ 0) ∨ (atv > data.length ∧ dir < 0)
    if isEdgeFind then
      let isLow := atv ≤ 0
      if (isLow ∧ dir = -1) ∨ (¬ isLow ∧ dir = 1) then .ok (-1)
      else .ok (if isLow then 0 else (data.node.length : Int) - 1)
    else if dir = 0 then
      let bestIndex := (data.virt.length : Int) - 1
      let bestDistance := |atv - data.length|
      if bestDistance = 0 then
        .error "unexpected, cannot be on top of edge"
      else
        .ok (findNearestLoop atv data.virt data.virt.length 0 bestIndex bestDistance)
    else
      let indexed := (List.range data.node.length).zip data.node
      let checks := indexed.filter (fun p =>
        Int.sign (atv - ((jsGet data.virt (p.1 : Int)).getD 0)) = -dir)
      if dir = 1 then
        match checks.head? with
        | none => .ok (-1)
        | some p => .ok (jsIndexOf data.node p.2)
      else
        match checks.getLast? with
        | none => .ok (-1)
        | some p => .ok (jsLastIndexOf data.node p.2)

/-- `Graph.#internalFindNode` (a `none` direction models the `undefined`
direction used by `exactNode`). -/
def internalFindNode (st : State) (edge : String) (atv : Int) (dir : Option Int) :
    Except String AtNode :=
  match alGet edge st.byEdge with
  | none => .error "missing data"
  | some data =>
    let index : Except String Int :=
      match dir with
      | none =>
        if atv < 0 ∨ atv > data.length then .ok (-1)
        else if atv = data.length then .ok ((data.node.length : Int) - 1)
        else .ok (jsIndexOf data.virt atv)
      | some d => internalFindNodeIndex st edge atv d
    match index with
    | .error m => .error m
    | .ok index =>
      if index = -1 then
        let afterNode := if atv < data.length then data.node.headD "" else ""
        let priorNode := if atv > 0 then data.node.getLastD "" else ""
        .ok { edge := edge, atv := atv, node := "", priorNode := priorNode, afterNode := afterNode }
      else
        let priorNode := if index > 0 then (jsGet data.node (index - 1)).getD "" else ""
        let afterNode := if index < (data.node.length : Int) - 1 then (jsGet data.node (index + 1)).getD "" else ""
        .ok { edge := edge, atv := (jsGet data.virt index).getD 0,
              node := (jsGet data.node index).getD "", priorNode := priorNode, afterNode := afterNode }

/-- `Graph.findNode` (default direction 0). -/
def findNode (st : State) (edge : String) (atv : Int) (dir : Int) : Except String AtNode :=
  internalFindNode st edge atv (some dir)

/-- `Graph.exactNode`. -/
def exactNode (st : State) (edge : String) (atv : Int) : Except String AtNode :=
  internalFindNode st edge atv none

/-- `Graph.nodeOnEdge`. -/
def nodeOnEdge (st : State) (edge : String) (node : String) : Except String AtNode :=
  match alGet edge st.byEdge with
  | none => .error "missing data"
  | some edgeData =>
    let index := jsIndexOf edgeData.node node
    if index = -1 then
      .error s!"node not on edge: edge={edge} node={node}"
    else
      .ok { edge := edge, atv := (jsGet edgeData.virt index).getD 0,
            node := (jsGet edgeData.node index).getD "",
            priorNode := (jsGet edgeData.node (index - 1)).getD "",
            afterNode := (jsGet edgeData.node (index + 1)).getD "" }

/-- The insertion-point scan of `Graph.splitEdge`:
`for (i = 0; i < virt.length - 1; ++i) if (at < virt[i]) break`; the fuel
argument (always passed as `virt.length`, one more than the loop can ever
iterate) keeps the recursion structural. -/
def splitScan (atv : Int) (virt : List Int) : Nat → Nat → Nat
  | 0, i => i
  | fuel + 1, i =>
    if i < virt.length - 1 then
      if atv < (jsGet virt (i : Int)).getD 0 then i
      else splitScan atv virt fuel (i + 1)
    else i

/-- `Graph.splitEdge`: reuse an exact node, otherwise splice a fresh node into
the edge's `virt`/`node` lists. -/
def splitEdge (st : State) (edge : String) (atv : Int) :
    Except String (AtNode × State) :=
  match exactNode st edge atv with
  | .error m => .error m
  | .ok exact =>
    if exact.node ≠ "" then .ok (exact, st)
    else
      match alGet edge st.byEdge with
      | none => .error "missing data"
      | some data =>
        let i := splitScan atv data.virt data.virt.length 0
        let afterNode := jsGet data.node (i : Int)
        if i = 0 ∨ afterNode = none then .error "bad"
        else
          let (newId, st) := nextGlobalId st "N"
          let newNode : Node := { id := newId, holder := [edge], pairs := [] }
          let st := { st with byNode := alSet newId newNode st.byNode }
          let data' := { data with virt := spliceInsert data.virt i atv,
                                   node := spliceInsert data.node i newId }
          let st := { st with byEdge := alSet edge data' st.byEdge }
          .ok ({ edge := edge, atv := atv, node := newId,
                 priorNode := (jsGet data'.node ((i : Int) - 1)).getD "",
                 afterNode := (jsGet data'.node ((i : Int) + 1)).getD "" }, st)

/-- The `nodeVia` closure of `Graph.pairsAtNode`. -/
def nodeVia (st : State) (nodeId : String) (side : PairSide) : Except String String :=
  match nodeOnEdge st side.edge nodeId with
  | .error m => .error m
  | .ok nodeInfo =>
    match findNode st side.edge nodeInfo.atv side.dir with
    | .error m => .error m
    | .ok result =>
      if result.node = "" then .error s!"could not find node in dir: {side.dir}"
      else .ok result.node

/-- `Graph.pairsAtNode`: explicit pairs resolved to neighbour ids, then the
implicit straight-through pair for every edge on which the node is interior. -/
def pairsAtNode (st : State) (nodeId : String) :
    Except String (List (String × String)) :=
  match alGet nodeId st.byNode with
  | none => .error s!"missing data for node {nodeId}"
  | some data =>
    let explicit := data.pairs.foldl (fun (acc : Except String (List (String × String))) pair =>
      match acc with
      | .error m => .error m
      | .ok out =>
        match nodeVia st nodeId pair.1, nodeVia st nodeId pair.2 with
        | .ok x, .ok y => .ok (out ++ [(x, y)])
        | .error m, _ => .error m
        | _, .error m => .error m) (.ok [])
    match explicit with
    | .error m => .error m
    | .ok out =>
      data.holder.foldl (fun (acc : Except String (List (String × String))) edge =>
        match acc with
        | .error m => .error m
        | .ok out =>
          match alGet edge st.byEdge with
          | none => .error "missing data"
          | some dataEdge =>
            let indexOfNode := jsIndexOf dataEdge.node data.id
            if indexOfNode = -1 then .error "unxpected node not in holder"
            else if indexOfNode = 0 ∨ indexOfNode = (dataEdge.node.length : Int) - 1 then .ok out
            else
              .ok (out ++ [((jsGet dataEdge.node (indexOfNode - 1)).getD "",
                            (jsGet dataEdge.node (indexOfNode + 1)).getD "")])) (.ok out)

/-- `Graph.linesAtNode`. -/
def linesAtNode (st : State) (nodeId : String) : Except String (List AtNode) :=
  match alGet nodeId st.byNode with
  | none => .error s!"missing data for node {nodeId}"
  | some data =>
    let out := data.holder.foldl (fun (acc : Except String (List AtNode)) edgeId =>
      match acc with
      | .error m => .error m
      | .ok out =>
        match nodeOnEdge st edgeId nodeId with
        | .error m => .error m
        | .ok pos => .ok (out ++ [pos])) (.ok [])
    match out with
    | .error m => .error m
    | .ok out => if out.length = 0 then .error "missing node" else .ok out

/-- `Graph.dirsFromNode`: adjacent nodes over all incident edges, blanks
removed, as the insertion-ordered set the JS `Set` iterates. -/
def dirsFromNode (st : State) (nodeId : String) : Except String (List String) :=
  match linesAtNode st nodeId with
  | .error m => .error m
  | .ok lines =>
    let out := lines.foldl (fun (acc : List String) pos =>
      setAdd pos.priorNode (setAdd pos.afterNode acc)) []
    .ok (setDelete "" out)

/-- `Graph.nodePos`: the node's position on the first edge of its holder. -/
def nodePos (st : State) (nodeId : String) : Except String AtNode :=
  match alGet nodeId st.byNode with
  | none => .error s!"missing data for node {nodeId}"
  | some data =>
    match data.holder.head? with
    | some edgeId => nodeOnEdge st edgeId nodeId
    | none => .error s!"missing node: {nodeId}"

/-- The double-connection preflight of `Graph.mergeNode`: every edge of
`dataA.holder` in order, first fetching the edge (which may fail), then
testing its `other` set against `dataB.holder`.  Read-only; returns the first
error raised, if any. -/
def mergeCheck (st : State) (holderB : List String) : List String → Option String
  | [] => none
  | edge :: rest =>
    match alGet edge st.byEdge with
    | none => some "missing data"
    | some data =>
      if data.other.any (fun o => holderB.contains o) then
        some "can't connect edges twice"
      else mergeCheck st holderB rest

/-- The first destructive loop of `Graph.mergeNode`: transfer each of
`remove`'s edges onto `remain` (the holder update precedes the edge fetch, so
a missing edge throws mid-mutation), rewriting node references.  The edge
lookup reads `byEdge`, which the holder update does not touch, so it is
matched first here. -/
def mergePhase1 (removeId remainId : String) (st : State) :
    List String → State × Option String
  | [] => (st, none)
  | otherEdge :: rest =>
    match alGet otherEdge st.byEdge with
    | none =>
      let byNode1 := alUpdate remainId (fun n => { n with holder := setAdd otherEdge n.holder }) st.byNode
      ({ st with byNode := byNode1 }, some "missing data")
    | some data =>
      let byNode1 := alUpdate remainId (fun n => { n with holder := setAdd otherEdge n.holder }) st.byNode
      let node1 := data.node.map (fun n => if n = removeId then remainId else n)
      let data' := { data with node := node1 }
      mergePhase1 removeId remainId { st with byNode := byNode1, byEdge := alSet otherEdge data' st.byEdge } rest

/-- The sibling-set recomputation loop of `Graph.mergeNode`: every edge now at
the surviving node is marked as connected to every other one. -/
def mergePhase3 (remainHolder : List String) (st : State) :
    List String → State × Option String
  | [] => (st, none)
  | edge :: rest =>
    match alGet edge st.byEdge with
    | none => (st, some "missing data")
    | some data =>
      let other1 := remainHolder.foldl (fun o rep =>
        if rep ≠ edge then setAdd rep o else o) data.other
      let data' := { data with other := other1 }
      mergePhase3 remainHolder { st with byEdge := alSet edge data' st.byEdge } rest

/-- The tail of `Graph.mergeNode` after the first destructive loop: merge the
pairs onto the survivor, then recompute the sibling sets of every edge now at
the survivor. -/
def mergeTail (remove remain : Node) (st1 : State) : State × Option String :=
  let byNode2 := alUpdate remain.id (fun n => { n with pairs := n.pairs ++ remove.pairs }) st1.byNode
  let st2 := { st1 with byNode := byNode2 }
  let remainHolder := ((alGet remain.id st2.byNode).getD remain).holder
  mergePhase3 remainHolder st2 remainHolder

/-- `Graph.mergeNode`.  Both the same-edge check and the double-connection
check are read-only and precede the destructive phase, exactly as in the
source, so every error raised by either check returns the untouched state;
errors raised inside the destructive phase (a dangling edge id, which the
class invariants rule out) return the partially mutated state, as a JS throw
would leave it. -/
def mergeNode (st : State) (a b : String) : Except String String × State :=
  if a = b then (.ok a, st)
  else
    match alGet a st.byNode, alGet b st.byNode with
    | some dataA, some dataB =>
      -- `edgesAtFinalNode` construction: fails if the holder sets intersect.
      if dataB.holder.any (fun e => dataA.holder.contains e) then
        (.error "nodes already touch same edge", st)
      else
        match inlineLessSort (fun (x y : Node) => x.holder.length < y.holder.length) dataA dataB with
        | (remove, remain) =>
          match mergeCheck st dataB.holder dataA.holder with
          | some m => (.error m, st)
          | none =>
            match mergePhase1 remove.id remain.id st remove.holder with
            | (st1, some m) => (.error m, st1)
            | (st1, none) =>
              match mergeTail remove remain st1 with
              | (st3, some m) => (.error m, st3)
              | (st3, none) =>
                (.ok remain.id, { st3 with byNode := alDelete remove.id st3.byNode })
    | none, _ => (.error s!"missing data for node {a}", st)
    | _, none => (.error s!"missing data for node {b}", st)

/-- `Graph.findBetween`. -/
structure SegmentInfo where
  dir : Int
  length : Int
  inner : List String
  lowNode : String
  lowAt : Int
  highNode : String
  highAt : Int
  edge : String
deriving Repr, DecidableEq

/-- `Graph.findBetween`: the unique shared edge and the directed segment data
between the two nodes on it. -/
def findBetween (st : State) (lowNode highNode : String) : Except String SegmentInfo :=
  if lowNode = highNode then .error "can't find between same node"
  else
    match alGet lowNode st.byNode, alGet highNode st.byNode with
    | some lowData, some highData =>
      let sharedEdge := (lowData.holder.find? (fun e => highData.holder.contains e)).getD ""
      if sharedEdge = "" then .error "can't find between, nodes aren't on same edge"
      else
        match alGet sharedEdge st.byEdge with
        | none => .error "missing data"
        | some edgeData =>
          let lowIndex := jsIndexOf edgeData.node lowNode
          let highIndex := jsIndexOf edgeData.node highNode
          if lowIndex = -1 ∨ highIndex = -1 then
            .error "internal error, node not found in edge"
          else
            let inner :=
              if lowIndex < highIndex then
                (edgeData.node.take highIndex.toNat).drop (lowIndex.toNat + 1)
              else
                ((edgeData.node.take lowIndex.toNat).drop (highIndex.toNat + 1)).reverse
            let lowAt := (jsGet edgeData.virt lowIndex).getD 0
            let highAt := (jsGet edgeData.virt highIndex).getD 0
            .ok { dir := Int.sign (highAt - lowAt), length := |lowAt - highAt|,
                  inner := inner, lowNode := lowNode, lowAt := lowAt,
                  highNode := highNode, highAt := highAt, edge := sharedEdge }
    | none, _ => .error s!"missing data for node {lowNode}"
    | _, none => .error s!"missing data for node {highNode}"

/-- `Graph.#internalDeleteNode`: the search-cleanup deletion of a synthesized
interior node. -/
def internalDeleteNode (st : State) (node : String) : Except String State :=
  match alGet node st.byNode with
  | none => .error s!"missing data for node {node}"
  | some nodeData =>
    if nodeData.holder.length ≠ 1 then
      .error s!"can only do simple deletions, node on multiple lines: {node}"
    else if nodeData.pairs.length ≠ 0 then
      .error s!"can only do simple deletions, node has other pairs: {node}"
    else
      let edge := nodeData.holder.getLastD ""
      match alGet edge st.byEdge with
      | none => .error "missing data"
      | some data =>
        let index := jsIndexOf data.node node
        if index ≤ 0 ∨ index ≥ (data.node.length : Int) - 1 then
          .error s!"couldn't find cleanup node: {index}"
        else
          let data' := { data with node := spliceRemove data.node index.toNat,
                                   virt := spliceRemove data.virt index.toNat }
          let st := { st with byEdge := alSet edge data' st.byEdge }
          .ok { st with byNode := alDelete node st.byNode }

/-- `types.AtNodeDirRequest`: an endpoint for `search` — either a known node,
or an `(edge, at)` position, optionally with a `prevNode` direction hint.
Blank strings and `none` model absent JS fields. -/
structure AtNodeRequest where
  node : String := ""
  edge : String := ""
  atv : Option Int := none
  prevNode : String := ""
deriving Repr, DecidableEq

/-- The result of the `ensureNode` closure inside `Graph.search`. -/
structure EnsureResult where
  node : String
  prevNode : String
  fake : Bool
deriving Repr, DecidableEq

/-- The `ensureNode` closure of `Graph.search`: reuse the requested node or an
exact existing node, else synthesize one via `splitEdge`, recording it in the
cleanup list.  (JS truthiness: `req.at` is truthy only when present and
non-zero.) -/
def ensureNode (st : State) (req : AtNodeRequest) :
    Except String EnsureResult × State × List String :=
  let atTruthy : Bool := match req.atv with | some v => decide (v ≠ 0) | none => false
  if req.node ≠ "" then
    if req.edge ≠ "" ∨ atTruthy then
      (.error "node doesn't need edge/at", st, [])
    else (.ok ⟨req.node, req.prevNode, false⟩, st, [])
  else if req.edge = "" ∨ req.atv = none then
    (.error "without real node, edge/at must be specified", st, [])
  else
    let atv := req.atv.getD 0
    match exactNode st req.edge atv with
    | .error m => (.error m, st, [])
    | .ok ex =>
      if ex.node ≠ "" then (.ok ⟨ex.node, req.prevNode, false⟩, st, [])
      else
        match splitEdge st req.edge atv with
        | .error m => (.error m, st, [])
        | .ok (created, st') => (.ok ⟨created.node, req.prevNode, true⟩, st', [created.node])

/-- A frontier entry of `Graph.#internalSearch`, with its back-pointer. -/
inductive SearchHead where
  | mk (node : String) (prevNode : String) (back : Option SearchHead)
deriving Repr

/-- The frontier entry's node. -/
def SearchHead.node : SearchHead → String
  | .mk n _ _ => n

/-- The frontier entry's incoming node. -/
def SearchHead.prevNode : SearchHead → String
  | .mk _ p _ => p

/-- The path reconstruction of `#internalSearch`: walk the back-pointers,
then append the starting `prevNode` when present. -/
def buildPath : SearchHead → List String
  | .mk node prevNode back =>
    match back with
    | none => if prevNode ≠ "" then [node, prevNode] else [node]
    | some p => node :: buildPath p

/-- One description of a hop candidate (`segmentChoices` entries). -/
structure SegChoice where
  id : String
  prevNode : String
  node : String
deriving Repr, DecidableEq

/-- The `for (;;)` loop of `#internalSearch`, recursing on the `steps`
counter the source decrements (initially 1000); the `visited` set is carried
exactly as in the source, which never adds to it. -/
def searchLoop (st : State) (tov : String) (visited : List String) :
    Nat → List SearchHead → Except String (Option (List String))
  | 0, _ => .error "TODO: pathfinding took too many steps"
  | steps + 1, heads =>
    match heads with
    | [] => .ok none
    | next :: rest =>
      if steps = 0 then .error "TODO: pathfinding took too many steps"
      else if next.node = tov then .ok (some (buildPath next))
      else
        match pairsAtNode st next.node with
        | .error m => .error m
        | .ok pairs =>
          let choices := (pairs.filterMap (fun p =>
            if p.1 = next.prevNode then some p.2
            else if p.2 = next.prevNode then some p.1
            else none)).filter (fun c => c ≠ "")
          let segmentChoices := choices.foldl
            (fun (acc : Except String (List SegChoice)) choice =>
              match acc with
              | .error m => .error m
              | .ok out =>
                match findBetween st next.node choice with
                | .error m => .error m
                | .ok segment =>
                  if segment.inner.length ≠ 0 then
                    .error "pathfinding should go at most one step"
                  else
                    .ok (out ++ [{ id := next.node ++ ":" ++ choice,
                                   prevNode := next.node, node := choice }])) (.ok [])
          match segmentChoices with
          | .error m => .error m
          | .ok segmentChoices =>
            let pushed := (segmentChoices.filter (fun c => ¬ visited.contains c.id)).map
              (fun c => SearchHead.mk c.node c.prevNode (some next))
            searchLoop st tov visited steps (rest ++ pushed)

/-- `Graph.#internalSearch`. -/
def internalSearch (st : State) (fromNode fromPrev : String) (tov : String) :
    Except String (Option (List String)) :=
  if fromPrev ≠ "" then
    if fromNode = tov then .ok (some [tov, fromPrev])
    else searchLoop st tov [] 1000 [SearchHead.mk fromNode fromPrev none]
  else if fromNode = tov then .ok (some [tov])
  else
    match dirsFromNode st fromNode with
    | .error m => .error m
    | .ok dirs =>
      searchLoop st tov [] 1000 (dirs.map (fun d => SearchHead.mk d fromNode none))

/-- The `finally` block of `Graph.search`: delete the synthesized nodes in
push order; a failing deletion aborts with the partial state (a JS throw in a
`finally` supersedes the body's result). -/
def runCleanup (st : State) : List String → Except String Unit × State
  | [] => (.ok (), st)
  | n :: rest =>
    match internalDeleteNode st n with
    | .error m => (.error m, st)
    | .ok st' => runCleanup st' rest

/-- `Graph.search`.  The two `ensureNode` calls run before the `try` block,
so a throw while materializing `to` skips the cleanup of a node synthesized
for `from`; the body itself is read-only and its cleanup always runs. -/
def search (st : State) (reqFrom reqTo : AtNodeRequest) :
    Except String (Option (List AtNode)) × State :=
  match ensureNode st reqFrom with
  | (.error m, st', _) => (.error m, st')
  | (.ok nodeFrom, st1, cl1) =>
    match ensureNode st1 reqTo with
    | (.error m, st', _) => (.error m, st')
    | (.ok nodeTo, st2, cl2) =>
      let body : Except String (Option (List AtNode)) :=
        match internalSearch st2 nodeFrom.node nodeFrom.prevNode nodeTo.node with
        | .error m => .error m
        | .ok none => .ok none
        | .ok (some path) =>
          let fakeSet := (if nodeFrom.fake then [nodeFrom.node] else [])
            ++ (if nodeTo.fake then [nodeTo.node] else [])
          let mapped := path.foldl (fun (acc : Except String (List AtNode)) n =>
            match acc with
            | .error m => .error m
            | .ok out =>
              match nodePos st2 n with
              | .error m => .error m
              | .ok atn =>
                .ok (out ++ [if fakeSet.contains n then { atn with node := "" } else atn])) (.ok [])
          match mapped with
          | .error m => .error m
          | .ok out => .ok (some out)
      match runCleanup st2 (cl1 ++ cl2) with
      | (.error m, st3) => (.error m, st3)
      | (.ok _, st3) => (body, st3)

end Graph

/-! ## SnakeMan, from src/unnamed/part_006

The interval-reservation engine.  Parts live in unit `[0,1]` coordinates on
their edge; JS numbers are embedded as exact rationals (`ℚ`), which is what
the algorithm computes up to floating-point rounding.  `SnakePart` objects
are mutable and shared by reference between `#reservedEdge`, `#reservedNode`
and each snake's `parts` array, so they are given numeric identities in a
part heap and every table stores part ids.  The graph dependency injected
into the constructor is an abstract record of the four methods SnakeMan
calls; `Math.random`'s branch pick is an oracle field of that record. -/

namespace SnakeMan

/-- `SnakePart` from part_006. -/
structure SnakePart where
  snake : String
  edge : String
  dir : Int
  low : ℚ
  lowNode : String
  high : ℚ
  highNode : String
deriving Repr, DecidableEq

/-- `Snake` from part_006 (parts stored as heap ids, in array order). -/
structure Snake where
  id : String
  length : ℚ
  parts : List Nat
deriving Repr, DecidableEq

/-- The `types.EdgeDetails` fields SnakeMan reads. -/
structure EdgeDetails where
  edge : String
  lowNode : String
  highNode : String
  length : ℚ
deriving Repr, DecidableEq

/-- The `types.AtNode` fields SnakeMan reads (unit coordinates). -/
structure AtNode where
  edge : String
  atv : ℚ
  node : String
  priorNode : String
  afterNode : String
deriving Repr, DecidableEq

/-- The fields of `findSegment`'s result that SnakeMan reads. -/
structure SegmentInfo where
  edge : String
  dir : Int
  atv : ℚ
deriving Repr, DecidableEq

/-- A branch candidate (`choices` entries in `#increaseSnake`). -/
structure Choice where
  fromN : String
  via : String
  toN : String
deriving Repr, DecidableEq

/-- The graph interface injected into `SnakeMan`, plus the oracle standing in
for the `Math.random` pick among more than one branch candidate. -/
structure GraphAPI where
  edgeDetails : String → Except String EdgeDetails
  findNode : String → ℚ → Int → Except String AtNode
  pairsAtNode : String → Except String (List (String × String))
  findSegment : String → String → Except String SegmentInfo
  pick : List Choice → Nat

/-- The private state of a `SnakeMan`: the part heap (object identities), the
`#reservedEdge` and `#reservedNode` tables, `#bySnake`, and the id counters. -/
structure State where
  heap : List (Nat × SnakePart)
  reservedEdge : List (String × List Nat)
  reservedNode : List (String × List Nat)
  bySnake : List (String × Snake)
  nextPart : Nat
  nextId : Nat
deriving Repr, DecidableEq

/-- A freshly constructed `SnakeMan`. -/
def State.empty : State :=
  { heap := [], reservedEdge := [], reservedNode := [], bySnake := [], nextPart := 0, nextId := 0 }

/-- Write a part object back to the heap (a JS in-place mutation). -/
def setPart (st : State) (pid : Nat) (p : SnakePart) : State :=
  { st with heap := alSet pid p st.heap }

/-- `#reserveNode`: confirms the node is one of the part's ends, then records
the part against the node; `true` means some other part already held it. -/
def reserveNode (st : State) (pid : Nat) (node : String) : Except String Bool × State :=
  match alGet pid st.heap with
  | none => (.error "internal: missing part object", st)
  | some part =>
    if node = "" ∨ ¬ (part.highNode = node ∨ part.lowNode = node) then
      (.error "can't reserve empty node", st)
    else
      match alGet node st.reservedNode with
      | none => (.ok false, { st with reservedNode := alSet node [pid] st.reservedNode })
      | some existing =>
        if existing.length = 1 ∧ existing.contains pid then (.ok false, st)
        else (.ok true, { st with reservedNode := alSet node (setAdd pid existing) st.reservedNode })

/-- The second half of `#unreserveNode` (after the part's end was cleared):
removes the part from the node's occupant set. -/
def unreserveNodeFinish (st : State) (pid : Nat) (node : String) : Except String Unit × State :=
  match alGet node st.reservedNode with
  | none => (.error s!"can't unreserve nonexistent node: {node}", st)
  | some data =>
    if ¬ data.contains pid then
      (.error s!"can't unreserve nonexistent node: {node}", st)
    else
      if (setDelete pid data).length = 0 then
        (.ok (), { st with reservedNode := alDelete node st.reservedNode })
      else
        (.ok (), { st with reservedNode := alSet node (setDelete pid data) st.reservedNode })

/-- `#unreserveNode`: clears the matching end of the part, then removes the
part from the node's occupant set. -/
def unreserveNode (st : State) (pid : Nat) (node : String) : Except String Unit × State :=
  if node = "" then (.ok (), st)
  else
    match alGet pid st.heap with
    | none => (.error "internal: missing part object", st)
    | some part =>
      if part.highNode = node then
        unreserveNodeFinish (setPart st pid { part with highNode := "" }) pid node
      else if part.lowNode = node then
        unreserveNodeFinish (setPart st pid { part with lowNode := "" }) pid node
      else
        (.error "can't unreserve node NOT ON part", st)

/-- `#unreserve`: removes the part from its edge's reservation list. -/
def unreserve (st : State) (pid : Nat) : Except String Unit × State :=
  match alGet pid st.heap with
  | none => (.error "internal: missing part object", st)
  | some part =>
    match alGet part.edge st.reservedEdge with
    | none => (.error "can't unreserve, nothing for edge?", st)
    | some reserved =>
      if jsIndexOf reserved pid = -1 then (.error "can't unreserve, not found?", st)
      else
        if (spliceRemove reserved (jsIndexOf reserved pid).toNat).length = 0 then
          (.ok (), { st with reservedEdge := alDelete part.edge st.reservedEdge })
        else
          (.ok (), { st with reservedEdge := alSet part.edge (spliceRemove reserved (jsIndexOf reserved pid).toNat) st.reservedEdge })

/-- A part's extent read off the heap (used by the read-only scans; a missing
id, impossible for the states the engine builds, reads as a point at 0). -/
def pLow (st : State) (pid : Nat) : ℚ :=
  ((alGet pid st.heap).map SnakePart.low).getD 0

/-- The upper end of a part's extent, read off the heap. -/
def pHigh (st : State) (pid : Nat) : ℚ :=
  ((alGet pid st.heap).map SnakePart.high).getD 0

/-- The first loop of `#query`: scan for the insertion index of `low`,
returning -1 if `low` falls strictly inside an interval. -/
def queryScanLow (st : State) (low : ℚ) : List Nat → Nat → Int
  | [], i => (i : Int)
  | pid :: rest, i =>
    if low > pLow st pid ∧ low < pHigh st pid then -1
    else if low ≤ pLow st pid then (i : Int)
    else queryScanLow st low rest (i + 1)

/-- The second loop of `#query`: `true` when `high` falls strictly inside one
of the remaining intervals. -/
def queryScanHigh (st : State) (high : ℚ) : List Nat → Bool
  | [] => false
  | pid :: rest =>
    if high > pLow st pid ∧ high < pHigh st pid then true
    else queryScanHigh st high rest

/-- `#query`: the insertion index for `[low, high)` on `edge`, or -1. -/
def query (st : State) (edge : String) (low high : ℚ) : Int :=
  match alGet edge st.reservedEdge with
  | none => 0
  | some reserved =>
    let i := queryScanLow st low reserved 0
    if i = -1 then -1
    else if queryScanHigh st high (reserved.drop i.toNat) then -1
    else i

/-- The result of `#adjacentReservation`. -/
structure Adjacent where
  other : Option Nat
  dist : ℚ
deriving Repr, DecidableEq

/-- `#adjacentReservation`: the neighbouring reservation of `part` on its edge
in direction `dir`, and the free distance to it (or to the edge's end). -/
def adjacentReservation (st : State) (pid : Nat) (dir : Int) : Except String Adjacent :=
  match alGet pid st.heap with
  | none => .error "internal: missing part object"
  | some part =>
    match alGet part.edge st.reservedEdge with
    | none => .error "missing reserved part"
    | some all =>
      let index := jsIndexOf all pid
      if index = -1 then .error "missing reserved part"
      else if dir = -1 then
        if index = 0 then .ok { other := none, dist := part.low }
        else
          match jsGet all (index - 1) with
          | none => .error "internal: missing part object"
          | some otherId => .ok { other := some otherId, dist := part.low - pHigh st otherId }
      else
        match jsGet all (index + 1) with
        | none => .ok { other := none, dist := 1 - part.high }
        | some otherId => .ok { other := some otherId, dist := pLow st otherId - part.high }

/-- `#reserve`: insert the part into its edge's ordered reservation list at
the index `#query` finds; `false` when the query rejects the interval. -/
def reserve (st : State) (pid : Nat) : Except String Bool × State :=
  match alGet pid st.heap with
  | none => (.error "internal: missing part object", st)
  | some part =>
    match alGet part.edge st.reservedEdge with
    | none => (.ok true, { st with reservedEdge := alSet part.edge [pid] st.reservedEdge })
    | some existing =>
      if query st part.edge part.low part.high = -1 then (.ok false, st)
      else (.ok true, { st with reservedEdge := alSet part.edge (spliceInsert existing (query st part.edge part.low part.high).toNat pid) st.reservedEdge })

/-- `addSnake`: a zero-width part at `at` on `edge`; an empty string id means
the reservation was rejected. -/
def addSnake (st : State) (edge : String) (atv : ℚ) (dir : Int) : Except String String × State :=
  if atv < 0 ∨ atv > 1 then (.error s!"can't add snake off edge", st)
  else
    let id := "S" ++ toString (st.nextId + 1)
    let startPart : SnakePart :=
      { snake := id, edge := edge, dir := dir, low := atv, lowNode := "", high := atv, highNode := "" }
    let pid := st.nextPart
    let st := { st with heap := alSet pid startPart st.heap,
                        nextPart := st.nextPart + 1, nextId := st.nextId + 1 }
    match reserve st pid with
    | (.error m, st') => (.error m, st')
    | (.ok false, st') => (.ok "", st')
    | (.ok true, st') =>
      let s : Snake := { id := id, length := 0, parts := [pid] }
      (.ok id, { st' with bySnake := alSet id s st'.bySnake })

/-- `removeSnake`: release all edge reservations of the snake's parts, then
drop its bookkeeping. -/
def removeSnake (st : State) (snake : String) : Except String Unit × State :=
  match alGet snake st.bySnake with
  | none => (.error s!"no snake data for: {snake}", st)
  | some data =>
    let rec go (st : State) : List Nat → Except String Unit × State
      | [] => (.ok (), st)
      | pid :: rest =>
        match unreserve st pid with
        | (.error m, st') => (.error m, st')
        | (.ok _, st') => go st' rest
    match go st data.parts with
    | (.error m, st') => (.error m, st')
    | (.ok _, st') => (.ok (), { st' with bySnake := alDelete snake st'.bySnake })

/-- The loop of `#reduceSnake`; each continuing iteration splices one part
out, so fuel `parts.length + 1` is always enough. -/
def reduceLoop (G : GraphAPI) (snake : String) (e : Int) :
    Nat → State → ℚ → Except String Unit × State
  | 0, st, _ => (.error "internal: out of fuel", st)
  | fuel + 1, st, dec =>
    match alGet snake st.bySnake with
    | none => (.error s!"no snake data for: {snake}", st)
    | some data =>
      if ¬ (data.length > 0 ∧ dec > 0) then (.ok (), st)
      else
        let index := if e = 1 then data.parts.length - 1 else 0
        match data.parts[index]? with
        | none => (.error "internal: missing part object", st)
        | some pid =>
          match alGet pid st.heap with
          | none => (.error "internal: missing part object", st)
          | some part =>
            match G.edgeDetails part.edge with
            | .error m => (.error m, st)
            | .ok details =>
              let effectiveDir := e * part.dir
              let partUse := (part.high - part.low) * details.length
              if partUse ≥ dec then
                if effectiveDir = 1 then
                  let st := setPart st pid { part with high := part.high - dec / details.length }
                  match unreserveNode st pid part.highNode with
                  | (.error m, st') => (.error m, st')
                  | (.ok _, st') => (.ok (), st')
                else
                  let st := setPart st pid { part with low := part.low + dec / details.length }
                  match unreserveNode st pid part.lowNode with
                  | (.error m, st') => (.error m, st')
                  | (.ok _, st') => (.ok (), st')
              else if data.parts.length = 1 then
                (.error "1", st)
              else
                match unreserve st pid with
                | (.error m, st') => (.error m, st')
                | (.ok _, st') =>
                  match unreserveNode st' pid part.lowNode with
                  | (.error m, st2) => (.error m, st2)
                  | (.ok _, st2) =>
                    match unreserveNode st2 pid part.highNode with
                    | (.error m, st3) => (.error m, st3)
                    | (.ok _, st3) =>
                      let bySnake4 := alUpdate snake (fun s => { s with parts := spliceRemove s.parts index }) st3.bySnake
                      reduceLoop G snake e fuel { st3 with bySnake := bySnake4 } (dec - partUse)

/-- `#reduceSnake`: clamp, loop, then debit the requested amount from the
snake's length (the final debit is unconditional in the source). -/
def reduceSnake (st : State) (G : GraphAPI) (snake : String) (e : Int) (byv : ℚ) :
    Except String Unit × State :=
  match alGet snake st.bySnake with
  | none => (.error s!"no snake data for: {snake}", st)
  | some data =>
    let byv := max 0 byv
    let dec := min byv data.length
    match reduceLoop G snake e (data.parts.length + 1) st dec with
    | (.error m, st') => (.error m, st')
    | (.ok _, st') =>
      let bySnake' := alUpdate snake (fun s => { s with length := s.length - byv }) st'.bySnake
      (.ok (), { st' with bySnake := bySnake' })

/-- The part object `#increaseSnake` allocates when hopping onto a new edge:
a zero-width part at the segment start, holding the via node on the side the
segment grows from. -/
def hopPart (snake : String) (e : Int) (via : String) (seg : SegmentInfo) : SnakePart :=
  let added : SnakePart :=
    { snake := snake, edge := seg.edge, dir := seg.dir * e,
      low := seg.atv, lowNode := "", high := seg.atv, highNode := "" }
  if seg.dir = 1 then { added with lowNode := via } else { added with highNode := via }

/-- The move-onto-node step of `#increaseSnake`: the end part is extended to
the node, the node recorded and reserved; returns whether the node was
already occupied, and the node to route away from. -/
def increaseStep1 (st : State) (pid : Nat) (part : SnakePart) (nodeInDir : AtNode)
    (effectiveDir : Int) : Except String (Bool × String) × State :=
  if effectiveDir = 1 then
    let st := setPart st pid { part with high := nodeInDir.atv, highNode := nodeInDir.node }
    match reserveNode st pid nodeInDir.node with
    | (.error m, st') => (.error m, st')
    | (.ok w, st') => (.ok (w, nodeInDir.priorNode), st')
  else
    let st := setPart st pid { part with low := nodeInDir.atv, lowNode := nodeInDir.node }
    match reserveNode st pid nodeInDir.node with
    | (.error m, st') => (.error m, st')
    | (.ok w, st') => (.ok (w, nodeInDir.afterNode), st')

/-- `nodeInDir.node ? Array.from(pairsAtNode(...)) : []` — a synthetic edge
split point has no real node, hence no choices. -/
def pairsFor (G : GraphAPI) (node : String) : Except String (List (String × String)) :=
  if node ≠ "" then G.pairsAtNode node else .ok []

/-- `choices[0]`, or the injected stand-in for `Math.random` when more than
one candidate exists. -/
def pickChoice (G : GraphAPI) (choices : List Choice) : Option Choice :=
  if choices.length > 1 then choices[(G.pick choices % choices.length)]? else choices.head?

/-- Everything `#increaseSnake` does after moving onto a node: stop if the
node was occupied, enumerate the onward pairs, pick a branch, reserve a fresh
zero-width hop part on it, and continue the loop (`k` is the loop). -/
def increaseTail (G : GraphAPI) (snake : String) (e : Int) (byv : ℚ)
    (k : State → ℚ → Except String ℚ × State)
    (st : State) (inc' : ℚ) (wasAlreadyReserved : Bool) (fromNode : String)
    (nodeInDir : AtNode) : Except String ℚ × State :=
  if wasAlreadyReserved then
    let actualInc := byv - inc'
    let bySnake' := alUpdate snake (fun s => { s with length := s.length + actualInc }) st.bySnake
    (.ok inc', { st with bySnake := bySnake' })
  else
    match pairsFor G nodeInDir.node with
    | .error m => (.error m, st)
    | .ok pairsAtNode =>
      let choices := pairsAtNode.filterMap (fun p =>
        if p.1 = fromNode ∨ p.2 = fromNode then
          some { fromN := fromNode, via := nodeInDir.node,
                 toN := if p.1 = fromNode then p.2 else p.1 }
        else none)
      match pickChoice G choices with
      | none =>
        let actualInc := byv - inc'
        let bySnake' := alUpdate snake (fun s => { s with length := s.length + actualInc }) st.bySnake
        (.ok actualInc, { st with bySnake := bySnake' })
      | some choice =>
        match G.findSegment choice.via choice.toN with
        | .error m => (.error m, st)
        | .ok seg =>
          let pid2 := st.nextPart
          let added := hopPart snake e choice.via seg
          let st := { st with heap := alSet pid2 added st.heap, nextPart := st.nextPart + 1 }
          match reserveNode st pid2 choice.via with
          | (.error m, st') => (.error m, st')
          | (.ok _, st) =>
            match reserve st pid2 with
            | (.error m, st') => (.error m, st')
            | (.ok _, st) =>
              let bySnake' := alUpdate snake (fun s => { s with parts := if e = 1 then s.parts ++ [pid2] else pid2 :: s.parts }) st.bySnake
              k { st with bySnake := bySnake' } inc'

/-- The loop of `#increaseSnake`, on the explicit fuel the caller supplies
(the source's loop has no intrinsic bound: each hop moves to a new edge). -/
def increaseLoop (G : GraphAPI) (snake : String) (e : Int) (byv : ℚ) :
    Nat → State → ℚ → Except String ℚ × State
  | 0, st, _ => (.error "internal: out of fuel", st)
  | fuel + 1, st, inc =>
    if ¬ inc > 0 then
      -- Loop exhausted: `data.length += by; return by`.
      let bySnake' := alUpdate snake (fun s => { s with length := s.length + byv }) st.bySnake
      (.ok byv, { st with bySnake := bySnake' })
    else
      match alGet snake st.bySnake with
      | none => (.error s!"no snake data for: {snake}", st)
      | some data =>
        match (if e = 1 then data.parts.getLast? else data.parts.head?) with
        | none => (.error "internal: missing part object", st)
        | some pid =>
          match alGet pid st.heap with
          | none => (.error "internal: missing part object", st)
          | some part =>
            let effectiveDir := e * part.dir
            let findFrom := if effectiveDir = 1 then part.high else part.low
            match G.edgeDetails part.edge with
            | .error m => (.error m, st)
            | .ok details =>
              let unitInc := inc / details.length
              match G.findNode part.edge findFrom effectiveDir with
              | .error m => (.error m, st)
              | .ok nodeInDir =>
                let unitDeltaToNode := |findFrom - nodeInDir.atv|
                let deltaToNode := unitDeltaToNode * details.length
                match adjacentReservation st pid effectiveDir with
                | .error m => (.error m, st)
                | .ok adjacent =>
                  if adjacent.dist < min unitDeltaToNode unitInc then
                    -- Blocked by a neighbouring reservation: consume the gap
                    -- and return; the source returns `inc`, the REMAINING
                    -- amount, not the grown amount.
                    let st := if effectiveDir = 1
                      then setPart st pid { part with high := part.high + adjacent.dist }
                      else setPart st pid { part with low := part.low - adjacent.dist }
                    let inc' := inc - adjacent.dist * details.length
                    let actualInc := byv - inc'
                    let bySnake' := alUpdate snake (fun s => { s with length := s.length + actualInc }) st.bySnake
                    (.ok inc', { st with bySnake := bySnake' })
                  else if inc ≤ deltaToNode then
                    -- Fits before the next node: grow and leave the loop.
                    let st := if effectiveDir = 1
                      then setPart st pid { part with high := part.high + unitInc }
                      else setPart st pid { part with low := part.low - unitInc }
                    let bySnake' := alUpdate snake (fun s => { s with length := s.length + byv }) st.bySnake
                    (.ok byv, { st with bySnake := bySnake' })
                  else
                    -- Move completely onto the node.
                    match increaseStep1 st pid part nodeInDir effectiveDir with
                    | (.error m, st') => (.error m, st')
                    | (.ok (wasAlreadyReserved, fromNode), st) =>
                      increaseTail G snake e byv
                        (fun st2 inc2 => increaseLoop G snake e byv fuel st2 inc2)
                        st (inc - deltaToNode) wasAlreadyReserved fromNode nodeInDir

/-- `#increaseSnake`: clamp and run the loop. -/
def increaseSnake (st : State) (G : GraphAPI) (fuel : Nat) (snake : String) (e : Int) (byv : ℚ) :
    Except String ℚ × State :=
  match alGet snake st.bySnake with
  | none => (.error s!"no snake data for: {snake}", st)
  | some _ =>
    let byv := max 0 byv
    increaseLoop G snake e byv fuel st byv

/-- The sanity pre-scan of `expand`: re-derives each part's real-space use
from the graph (its only effect is a possible missing-edge throw and a debug
log, but the edge lookups must still run). -/
def totalUseScan (st : State) (G : GraphAPI) : List Nat → Except String ℚ
  | [] => .ok 0
  | pid :: rest =>
    match alGet pid st.heap with
    | none => .error "internal: missing part object"
    | some part =>
      match G.edgeDetails part.edge with
      | .error m => .error m
      | .ok details =>
        match totalUseScan st G rest with
        | .error m => .error m
        | .ok acc => .ok (acc + (part.high - part.low) * details.length)

/-- `expand`: the signed public grow/shrink entry point. -/
def expand (st : State) (G : GraphAPI) (fuel : Nat) (snake : String) (e : Int) (byv : ℚ) :
    Except String ℚ × State :=
  match alGet snake st.bySnake with
  | none => (.error s!"no snake data for: {snake}", st)
  | some data =>
    match totalUseScan st G data.parts with
    | .error m => (.error m, st)
    | .ok _ =>
      if byv = 0 then (.ok 0, st)
      else if byv > 0 then increaseSnake st G fuel snake e byv
      else
        match reduceSnake st G snake e (-byv) with
        | (.error m, st') => (.error m, st')
        | (.ok _, st') => (.ok (-byv), st')

/-- `move`: expand at `end`, then expand the opposite end by the measured
length difference; returns the first expansion's result. -/
def move (st : State) (G : GraphAPI) (fuel : Nat) (snake : String) (e : Int) (byv : ℚ) :
    Except String ℚ × State :=
  match alGet snake st.bySnake with
  | none => (.error s!"no snake data for: {snake}", st)
  | some data =>
    let intendedLength := data.length
    match expand st G fuel snake e byv with
    | (.error m, st') => (.error m, st')
    | (.ok expandBy, st1) =>
      match alGet snake st1.bySnake with
      | none => (.error s!"no snake data for: {snake}", st1)
      | some data1 =>
        let shrinkBy := intendedLength - data1.length
        match expand st1 G fuel snake (-e) shrinkBy with
        | (.error m, st') => (.error m, st')
        | (.ok _, st2) => (.ok expandBy, st2)

/-- A snake's recorded length, as the partial lookup the tables give. -/
def snakeLen (st : State) (s : String) : Option ℚ :=
  (alGet s st.bySnake).map Snake.length

/-- Reservation `a` ends before reservation `b` begins (both read off the
heap). -/
def Before (st : State) (a b : Nat) : Prop :=
  pHigh st a ≤ pLow st b

/-- A part id recorded on edge `e` is allocated, lives on `e`, and spans a
well-ordered sub-interval of the unit edge. -/
def GoodPart (st : State) (e : String) (pid : Nat) : Prop :=
  pid < st.nextPart ∧
    ∃ p, alGet pid st.heap = some p ∧ p.edge = e ∧ 0 ≤ p.low ∧ p.low ≤ p.high ∧ p.high ≤ 1

/-- Invariant I7 as the engine maintains it: every per-edge reservation list
is duplicate-free, ordered (each interval ends before the next begins — in
particular the intervals are pairwise disjoint), and made of good parts. -/
def WFE (st : State) : Prop :=
  ∀ e l, alGet e st.reservedEdge = some l →
    l.Nodup ∧ List.Pairwise (Before st) l ∧ ∀ pid ∈ l, GoodPart st e pid

/-- Full well-formedness: I7 plus every allocated part having a ±1 direction. -/
def WF (st : State) : Prop :=
  WFE st ∧ ∀ pid p, alGet pid st.heap = some p → (p.dir = 1 ∨ p.dir = -1)

/-- The graph honesty assumptions the engine relies on: positive edge
lengths, `findNode` results on the unit edge and on the requested side of the
query point, and `findSegment` results on the unit edge with a ±1 direction. -/
def Honest (G : GraphAPI) : Prop :=
  (∀ e d, G.edgeDetails e = .ok d → 0 < d.length) ∧
  (∀ e x dir n, 0 ≤ x → x ≤ 1 → G.findNode e x dir = .ok n →
    0 ≤ n.atv ∧ n.atv ≤ 1 ∧ (dir = 1 → x ≤ n.atv) ∧ (dir = -1 → n.atv ≤ x)) ∧
  (∀ a b seg, G.findSegment a b = .ok seg →
    0 ≤ seg.atv ∧ seg.atv ≤ 1 ∧ (seg.dir = 1 ∨ seg.dir = -1))

end SnakeMan

/-! ### Concrete scenarios over SnakeMan -/

/-- A single edge `E` of length 100 with end nodes `NL`, `NH`, as the graph
dependency for the SnakeMan scenarios (unit coordinates; `findNode` in the
positive direction finds `NH` at 1, in the negative direction `NL` at 0). -/
def lineGraph : SnakeMan.GraphAPI :=
  { edgeDetails := fun e =>
      if e = "E" then .ok { edge := "E", lowNode := "NL", highNode := "NH", length := 100 }
      else .error "missing data",
    findNode := fun e _ dir =>
      if e = "E" then
        if dir = 1 then .ok { edge := "E", atv := 1, node := "NH", priorNode := "NL", afterNode := "" }
        else .ok { edge := "E", atv := 0, node := "NL", priorNode := "", afterNode := "NH" }
      else .error "missing data",
    pairsAtNode := fun _ => .ok [],
    findSegment := fun _ _ => .error "no segment",
    pick := fun _ => 0 }

/-- C3 scenario: `s1 = S2` occupying `[20, 40)` and `s2 = S1` occupying
`[60, 80)` on the 100-long edge (unit intervals `[0.2, 0.4)`, `[0.6, 0.8)`),
then `grow(s1, +1, 100)`; returns the grow result and the final state. -/
def c3Run : Except String (ℚ × SnakeMan.State) := do
  let (s2, st) := SnakeMan.addSnake SnakeMan.State.empty "E" (6/10) 1
  let _ ← s2
  let (r, st) := SnakeMan.expand st lineGraph 10 "S1" 1 20
  let _ ← r
  let (s1, st) := SnakeMan.addSnake st "E" (2/10) 1
  let _ ← s1
  let (r, st) := SnakeMan.expand st lineGraph 10 "S2" 1 20
  let _ ← r
  let (r, st) := SnakeMan.expand st lineGraph 10 "S2" 1 100
  match r with
  | .error m => .error m
  | .ok v => pure (v, st)

/-- C4 counterexample scenario: a blocker `S1` occupying `[0, 0.15)` and the
snake `S2` occupying `[0.2, 0.4)`; `move(S2, +1, -10)` shrinks the head by 10
but can regrow the tail only 5 before hitting the blocker.  Returns the
snake's length before, its length after, and the move result. -/
def c4CounterRun : Except String (ℚ × ℚ × ℚ) := do
  let (sB, st) := SnakeMan.addSnake SnakeMan.State.empty "E" 0 1
  let _ ← sB
  let (r, st) := SnakeMan.expand st lineGraph 10 "S1" 1 15
  let _ ← r
  let (s1, st) := SnakeMan.addSnake st "E" (2/10) 1
  let _ ← s1
  let (r, st) := SnakeMan.expand st lineGraph 10 "S2" 1 20
  let _ ← r
  let lenBefore := ((alGet "S2" st.bySnake).map SnakeMan.Snake.length).getD 0
  let (r, st) := SnakeMan.move st lineGraph 10 "S2" 1 (-10)
  match r with
  | .error m => .error m
  | .ok v => pure (lenBefore, ((alGet "S2" st.bySnake).map SnakeMan.Snake.length).getD 0, v)

/-- The C4 witness state: `S1` at `[0.6, 0.8)` and `S2` at `[0.2, 0.4)` on the
100-long edge, exactly as the public constructors build it. -/
def c4WitnessState : SnakeMan.State :=
  { heap := [(0, { snake := "S1", edge := "E", dir := 1, low := 6/10, lowNode := "", high := 8/10, highNode := "" }),
             (1, { snake := "S2", edge := "E", dir := 1, low := 2/10, lowNode := "", high := 4/10, highNode := "" })],
    reservedEdge := [("E", [1, 0])],
    reservedNode := [],
    bySnake := [("S1", { id := "S1", length := 20, parts := [0] }),
                ("S2", { id := "S2", length := 20, parts := [1] })],
    nextPart := 2, nextId := 2 }

/-- The C8 counterexample state: one reservation `[0.4, 0.5)` on edge `E`
already in the table, and an unlisted part 1 spanning `(0.2, 0.8)` that
strictly contains it. -/
def c8St : SnakeMan.State :=
  { heap := [(0, { snake := "S1", edge := "E", dir := 1, low := 4/10, lowNode := "", high := 5/10, highNode := "" }),
             (1, { snake := "S2", edge := "E", dir := 1, low := 2/10, lowNode := "", high := 8/10, highNode := "" })],
    reservedEdge := [("E", [0])],
    reservedNode := [],
    bySnake := [],
    nextPart := 2, nextId := 2 }

/-- The state after the C8 counterexample insertion: the containing interval
was inserted in front of the contained one. -/
def c8After : SnakeMan.State :=
  { heap := [(0, { snake := "S1", edge := "E", dir := 1, low := 4/10, lowNode := "", high := 5/10, highNode := "" }),
             (1, { snake := "S2", edge := "E", dir := 1, low := 2/10, lowNode := "", high := 8/10, highNode := "" })],
    reservedEdge := [("E", [1, 0])],
    reservedNode := [],
    bySnake := [],
    nextPart := 2, nextId := 2 }

/-- The C8 witness state: the reservations of `c4WitnessState` plus an
unlisted zero-width part 2 at `0.5`, about to be inserted. -/
def c8WitnessState : SnakeMan.State :=
  { heap := [(0, { snake := "S1", edge := "E", dir := 1, low := 6/10, lowNode := "", high := 8/10, highNode := "" }),
             (1, { snake := "S2", edge := "E", dir := 1, low := 2/10, lowNode := "", high := 4/10, highNode := "" }),
             (2, { snake := "S3", edge := "E", dir := 1, low := 1/2, lowNode := "", high := 1/2, highNode := "" })],
    reservedEdge := [("E", [1, 0])],
    reservedNode := [],
    bySnake := [],
    nextPart := 3, nextId := 3 }

/-! ### Concrete scenarios over Graph -/

/-- C5 scenario: two disjoint edges (`connect(a,b,10)`, `connect(a',b',10)` in
the spec's vocabulary), then `merge(a, a')`, then the failing `merge(b, b')`;
returns the second merge's outcome, its final state, and the state it started
from. -/
def c5Run : Except String (Except String String × Graph.State × Graph.State) := do
  let (e1, st0) ← Graph.add Graph.State.empty 10
  let (e2, st0) ← Graph.add st0 10
  match Graph.mergeNode st0 e1.lowNode e2.lowNode with
  | (.error m, _) => .error m
  | (.ok _, st1) =>
    let (r2, st2) := Graph.mergeNode st1 e1.highNode e2.highNode
    pure (r2, st2, st1)

/-- C6 scenario, the repo's own `basic merge` test: a 100-edge split at 50 and
a 10-edge; `mergeNode(split.node, e2.lowNode)` is a tie (both holder sets have
size 1). -/
def c6Setup : Except String (String × String × Graph.State) := do
  let (e1, st) ← Graph.add Graph.State.empty 100
  let (e2, st) ← Graph.add st 10
  let (split, st) ← Graph.splitEdge st e1.edge 50
  pure (split.node, e2.lowNode, st)

/-- C6 scenario run: the two argument ids, their holder-set sizes, and the
merge result. -/
def c6Run : Except String (String × String × Nat × Nat × Except String String) := do
  let (n1, n2, st) ← c6Setup
  let sA := ((alGet n1 st.byNode).map (fun n => n.holder.length)).getD 0
  let sB := ((alGet n2 st.byNode).map (fun n => n.holder.length)).getD 0
  let (r, _) := Graph.mergeNode st n1 n2
  pure (n1, n2, sA, sB, r)

/-- The state after the C6 setup (`add(100)`, `add(10)`, `splitEdge(E1, 50)`),
used as the concrete input of the C6 witness. -/
def c6St : Graph.State :=
  { byEdge := [("E1", { id := "E1", length := 100, virt := [0, 50, 100],
                        node := ["N2", "N7", "N3"], other := [] }),
               ("E4", { id := "E4", length := 10, virt := [0, 10],
                        node := ["N5", "N6"], other := [] })],
    byNode := [("N2", { id := "N2", holder := ["E1"], pairs := [] }),
               ("N3", { id := "N3", holder := ["E1"], pairs := [] }),
               ("N5", { id := "N5", holder := ["E4"], pairs := [] }),
               ("N6", { id := "N6", holder := ["E4"], pairs := [] }),
               ("N7", { id := "N7", holder := ["E1"], pairs := [] })],
    nextId := 7 }

/-- A two-node graph on one edge; the C5 witness input (merging its two nodes
fails the same-edge check, read-only, so the state survives unchanged). -/
def c5St : Graph.State :=
  { byEdge := [("E", { id := "E", length := 5, virt := [0, 5], node := ["a", "b"], other := [] })],
    byNode := [("a", { id := "a", holder := ["E"], pairs := [] }),
               ("b", { id := "b", holder := ["E"], pairs := [] })],
    nextId := 0 }

/-- C9 scenario setup: a single edge of length 100 (nodes at 0 and 100). -/
def c9Setup : Except String (String × Graph.State) := do
  let (e1, st) ← Graph.add Graph.State.empty 100
  pure (e1.edge, st)

/-- C9 failing run: `from` is the mid-edge position 50 (which must be
synthesized), `to` names a nonexistent edge, so materializing `to` throws
after `from`'s vertex was created. -/
def c9Run : Except String (Except String (Option (List Graph.AtNode)) × Graph.State) := do
  let (e1, st) ← c9Setup
  pure (Graph.search st { edge := e1, atv := some 50 } { edge := "bogus", atv := some 0 })

/-- C9 control run: the same synthesized `from` with a valid `to`; the search
completes and the cleanup path inside the `try` runs. -/
def c9CleanRun : Except String (Except String (Option (List Graph.AtNode)) × Graph.State) := do
  let (e1, st) ← c9Setup
  pure (Graph.search st { edge := e1, atv := some 50 } { node := "N3" })

/-- C7 scenario: `a`, `via`, `b` with `connect(a, b, L)`. -/
def c7Graph (L : Int) : Except String Graph2.State := do
  let st ← Graph2.addNode Graph2.State.empty "a"
  let st ← Graph2.addNode st "b"
  let st ← Graph2.addNode st "via"
  Graph2.connect st "a" "b" L

/-- C7: split the length-`L` edge at `-k` (expected by the spec to mean
position `L - k` from the `a` side). -/
def c7Split (L k : Int) : Except String Graph2.State := do
  let st ← c7Graph L
  Graph2.split st "a" "via" "b" (-k)

end TG

/-! ## Theorems -/

namespace TG

/-! ### Association-list and array-helper lemmas -/

/-- Reading back the key just written. -/
theorem alGet_alSet_self [DecidableEq α] (k : α) (v : β) (l : List (α × β)) :
    alGet k (alSet k v l) = some v := by
  induction l with
  | nil => simp [alGet, alSet]
  | cons hd tl ih =>
    by_cases h : hd.1 = k <;> simp [alGet, alSet, h, ih]

/-- Writing one key does not disturb another. -/
theorem alGet_alSet_ne [DecidableEq α] (k k' : α) (v : β) (l : List (α × β)) (h : k ≠ k') :
    alGet k (alSet k' v l) = alGet k l := by
  induction l with
  | nil =>
    simp only [alSet, alGet]
    rw [if_neg (fun hh => h hh.symm)]
  | cons hd tl ih =>
    by_cases h1 : hd.1 = k' <;> by_cases h2 : hd.1 = k <;>
      simp_all [alGet, alSet]

/-- Reading back through an in-place update. -/
theorem alGet_alUpdate_self [DecidableEq α] (k : α) (f : β → β) (l : List (α × β)) :
    alGet k (alUpdate k f l) = (alGet k l).map f := by
  induction l with
  | nil => simp [alGet, alUpdate]
  | cons hd tl ih =>
    by_cases h : hd.1 = k <;> simp [alGet, alUpdate, h, ih]

/-- An in-place update of one key does not disturb another. -/
theorem alGet_alUpdate_ne [DecidableEq α] (k k' : α) (f : β → β) (l : List (α × β)) (h : k ≠ k') :
    alGet k (alUpdate k' f l) = alGet k l := by
  induction l with
  | nil => simp [alGet, alUpdate]
  | cons hd tl ih =>
    by_cases h1 : hd.1 = k' <;> by_cases h2 : hd.1 = k <;>
      simp_all [alGet, alUpdate]

/-- A non-(-1) `indexOf` result points at the element. -/
theorem jsIndexOf_spec [DecidableEq α] (l : List α) (x : α) :
    jsIndexOf l x = -1 ∨
      (0 ≤ jsIndexOf l x ∧ (jsIndexOf l x).toNat < l.length ∧
        l[(jsIndexOf l x).toNat]? = some x) := by
  induction l with
  | nil => simp [jsIndexOf]
  | cons hd tl ih =>
    by_cases h : hd == x
    · right
      refine ⟨by simp [jsIndexOf, h], by simp [jsIndexOf, h], ?_⟩
      simp [jsIndexOf, h]
      exact eq_of_beq h
    · rcases ih with ih | ⟨ih0, ihlt, ihget⟩
      · left; simp [jsIndexOf, h, ih]
      · right
        have hne : jsIndexOf tl x ≠ -1 := by omega
        have hval : jsIndexOf (hd :: tl) x = jsIndexOf tl x + 1 := by
          simp only [jsIndexOf, h, Bool.false_eq_true, if_false]
          exact if_neg hne
        rw [hval]
        refine ⟨by omega, by simp only [List.length_cons]; omega, ?_⟩
        have htn : (jsIndexOf tl x + 1).toNat = (jsIndexOf tl x).toNat + 1 := by omega
        rw [htn]
        simpa using ihget

/-- `jsGet` is `getElem?` at a non-negative in-range index. -/
theorem jsGet_eq_getElem (l : List α) (i : Int) (h0 : 0 ≤ i) :
    jsGet l i = l[i.toNat]? := by
  unfold jsGet
  split
  · rename_i h
    exact (List.getElem?_eq_getElem h.2).symm
  · rename_i h
    have : ¬ i.toNat < l.length := fun hc => h ⟨h0, hc⟩
    simp [List.getElem?_eq_none_iff]
    omega

/-- C1: with `connect(a, b, 100)` and a zero-length snake `s` at `a`, the calls
`grow(s,+1,10)`, `grow(s,+1,90)`, `shrink(s,-1,80)`, `shrink(s,+1,25)` return
10, 90, 80, 20, and after each call the snake state and the occupancy sets of
`a` and `b` are exactly those of spec scenario 1; the final state has length 0,
node list `[b, a]`, head offset 20, tail offset 80, neither vertex occupied,
and the snake still exists. -/
theorem c1_simple_line_reserve :
    c1Run = .ok ((10, 90, 80, 20),
      { byNode := [("a", { conn := [("b", { length := 100, through := [] })], reserve := ["s"] }),
                   ("b", { conn := [("a", { length := 100, through := [] })], reserve := [] })],
        byReserve := [("s", { length := 10, node := ["b", "a"], headOffset := 90, tailOffset := 0 })] },
      { byNode := [("a", { conn := [("b", { length := 100, through := [] })], reserve := ["s"] }),
                   ("b", { conn := [("a", { length := 100, through := [] })], reserve := ["s"] })],
        byReserve := [("s", { length := 100, node := ["b", "a"], headOffset := 0, tailOffset := 0 })] },
      { byNode := [("a", { conn := [("b", { length := 100, through := [] })], reserve := [] }),
                   ("b", { conn := [("a", { length := 100, through := [] })], reserve := ["s"] })],
        byReserve := [("s", { length := 20, node := ["b", "a"], headOffset := 0, tailOffset := 80 })] },
      { byNode := [("a", { conn := [("b", { length := 100, through := [] })], reserve := [] }),
                   ("b", { conn := [("a", { length := 100, through := [] })], reserve := [] })],
        byReserve := [("s", { length := 0, node := ["b", "a"], headOffset := 20, tailOffset := 80 })] }) := by
  rfl

/-- C2 counterexample: in scenario 5 the oracle is never invoked at all — the
candidate list at `m` is `[b]`, of length 1, and the source only consults the
callback when more than one candidate exists.  With the concrete oracle
`c2Oracle` the recorded invocation list is `[]`, not `[(m, [b])]`, refuting
"invokes the caller-supplied oracle with the candidate list [b]". -/
theorem c2_counterexample_oracle_not_invoked :
    (c2Run c2Oracle).map (fun p => p.2.2) = .ok [] ∧
      ([] : List (String × List String)) ≠ [("m", ["b"])] := by
  exact ⟨rfl, by simp⟩

/-- C2 (amended): for every oracle `f`, growing the snake from `a` through `m`
by 15 returns 15 with path `[b, m, a]` — it reaches `b`, never `c` — and the
oracle is never invoked, because the computed candidate list at `m` is `[b]`
only (the through-routable neighbours whose pair partner is the previous
vertex `a`), and a single candidate is taken without consulting the oracle. -/
theorem c2_junction_choice (f : String → List String → String) :
    c2Run f = .ok (15,
      { byNode := [("a", { conn := [("m", { length := 10, through := [] })], reserve := ["s"] }),
                   ("m", { conn := [("a", { length := 10, through := ["b"] }),
                           ("b", { length := 10, through := ["a"] }),
                           ("c", { length := 10, through := [] })], reserve := ["s"] }),
                   ("b", { conn := [("m", { length := 10, through := [] })], reserve := [] }),
                   ("c", { conn := [("m", { length := 10, through := [] })], reserve := [] })],
        byReserve := [("s", { length := 15, node := ["b", "m", "a"], headOffset := 5, tailOffset := 0 })] },
      []) := by
  rfl

/-! ### Reservation-invariant lemmas for SnakeMan -/

/-- A heap hit determines `pLow`. -/
theorem pLow_eq (st : SnakeMan.State) (pid : Nat) (p : SnakeMan.SnakePart)
    (h : alGet pid st.heap = some p) : SnakeMan.pLow st pid = p.low := by
  simp [SnakeMan.pLow, h]

/-- A heap hit determines `pHigh`. -/
theorem pHigh_eq (st : SnakeMan.State) (pid : Nat) (p : SnakeMan.SnakePart)
    (h : alGet pid st.heap = some p) : SnakeMan.pHigh st pid = p.high := by
  simp [SnakeMan.pHigh, h]

/-- On a well-formed state, the free distance `#adjacentReservation` reports
is never negative: it is bounded below by the ordering of the edge's
reservation list (or by the `[0,1]` bounds at the edge's ends). -/
theorem adjacent_dist_nonneg (st : SnakeMan.State) (pid : Nat) (dir : Int)
    (part : SnakeMan.SnakePart) (adj : SnakeMan.Adjacent)
    (hwf : SnakeMan.WFE st) (hp : alGet pid st.heap = some part)
    (h : SnakeMan.adjacentReservation st pid dir = .ok adj) : 0 ≤ adj.dist := by
  unfold SnakeMan.adjacentReservation at h
  simp only [hp] at h
  rcases hall : alGet part.edge st.reservedEdge with _ | all <;> simp only [hall] at h
  · exact absurd h (by simp)
  rcases hwf part.edge all hall with ⟨hnd, hpw, hgood⟩
  rcases jsIndexOf_spec all pid with hidx | ⟨hidx0, hidxlt, hidxget⟩
  · rw [hidx] at h; exact absurd h (by simp)
  have hne : jsIndexOf all pid ≠ -1 := by omega
  rw [if_neg hne] at h
  obtain ⟨hlt, hget⟩ := List.getElem?_eq_some_iff.mp hidxget
  have hpidmem : pid ∈ all := hget ▸ List.getElem_mem hlt
  obtain ⟨_, p0, hp0, hpedge, hl0, hlh0, hh0⟩ := hgood pid hpidmem
  have hp0' : p0 = part := by rw [hp0] at hp; exact Option.some.inj hp
  rw [hp0'] at hl0 hlh0 hh0
  have hplow : SnakeMan.pLow st pid = part.low := pLow_eq st pid part hp
  have hphigh : SnakeMan.pHigh st pid = part.high := pHigh_eq st pid part hp
  have hpwget := List.pairwise_iff_getElem.mp hpw
  split at h
  · -- dir = -1
    split at h
    · -- index 0: dist = part.low
      have hadj := Except.ok.inj h
      rw [← hadj]
      simp only
      exact hl0
    · rename_i hidxne
      rcases hjg : jsGet all (jsIndexOf all pid - 1) with _ | otherId <;> simp only [hjg] at h
      · exact absurd h (by simp)
      have hidx1 : (0 : Int) ≤ jsIndexOf all pid - 1 := by omega
      rw [jsGet_eq_getElem all _ hidx1] at hjg
      obtain ⟨holt, hoget⟩ := List.getElem?_eq_some_iff.mp hjg
      have hbefore : SnakeMan.Before st all[(jsIndexOf all pid - 1).toNat] all[(jsIndexOf all pid).toNat] := by
        refine hpwget _ _ holt hlt ?_
        omega
      rw [hoget, hget] at hbefore
      unfold SnakeMan.Before at hbefore
      rw [hplow] at hbefore
      have hadj := Except.ok.inj h
      rw [← hadj]
      simp only
      linarith
  · -- dir ≠ -1
    rcases hjg : jsGet all (jsIndexOf all pid + 1) with _ | otherId <;> simp only [hjg] at h
    · have hadj := Except.ok.inj h
      rw [← hadj]
      simp only
      linarith
    · have hidx1 : (0 : Int) ≤ jsIndexOf all pid + 1 := by omega
      rw [jsGet_eq_getElem all _ hidx1] at hjg
      obtain ⟨holt, hoget⟩ := List.getElem?_eq_some_iff.mp hjg
      have hbefore : SnakeMan.Before st all[(jsIndexOf all pid).toNat] all[(jsIndexOf all pid + 1).toNat] := by
        refine hpwget _ _ hlt holt ?_
        omega
      rw [hoget, hget] at hbefore
      unfold SnakeMan.Before at hbefore
      rw [hphigh] at hbefore
      have hadj := Except.ok.inj h
      rw [← hadj]
      simp only
      linarith

/-- `WFE` only reads the heap, the edge-reservation table and the allocation
bound, so states agreeing there share it. -/
theorem WFE_congr (st st' : SnakeMan.State) (hheap : st'.heap = st.heap)
    (hre : st'.reservedEdge = st.reservedEdge) (hnp : st.nextPart ≤ st'.nextPart)
    (h : SnakeMan.WFE st) : SnakeMan.WFE st' := by
  intro e l hl
  rw [hre] at hl
  rcases h e l hl with ⟨h1, h2, h3⟩
  refine ⟨h1, ?_, ?_⟩
  · refine h2.imp (fun hab => ?_)
    unfold SnakeMan.Before SnakeMan.pHigh SnakeMan.pLow at *
    rw [hheap]
    exact hab
  · intro pid hm
    rcases h3 pid hm with ⟨hb, p, hp, rest⟩
    exact ⟨by omega, p, hheap ▸ hp, rest⟩

/-- Rewriting a part without changing its edge or extent preserves `WFE`
(this covers the node-occupancy bookkeeping writes). -/
theorem WFE_setPart_extent (st : SnakeMan.State) (pid : Nat) (p p' : SnakeMan.SnakePart)
    (hp : alGet pid st.heap = some p) (hedge : p'.edge = p.edge) (hlow : p'.low = p.low)
    (hhigh : p'.high = p.high) (h : SnakeMan.WFE st) : SnakeMan.WFE (SnakeMan.setPart st pid p') := by
  have hL : ∀ q, SnakeMan.pLow (SnakeMan.setPart st pid p') q = SnakeMan.pLow st q := by
    intro q
    by_cases hq : q = pid
    · subst hq
      simp [SnakeMan.pLow, SnakeMan.setPart, alGet_alSet_self, hp, hlow]
    · simp [SnakeMan.pLow, SnakeMan.setPart, alGet_alSet_ne q pid p' st.heap hq]
  have hH : ∀ q, SnakeMan.pHigh (SnakeMan.setPart st pid p') q = SnakeMan.pHigh st q := by
    intro q
    by_cases hq : q = pid
    · subst hq
      simp [SnakeMan.pHigh, SnakeMan.setPart, alGet_alSet_self, hp, hhigh]
    · simp [SnakeMan.pHigh, SnakeMan.setPart, alGet_alSet_ne q pid p' st.heap hq]
  intro e l hl
  rcases h e l hl with ⟨h1, h2, h3⟩
  refine ⟨h1, ?_, ?_⟩
  · refine h2.imp (fun hab => ?_)
    unfold SnakeMan.Before at *
    rw [hL, hH]
    exact hab
  · intro q hm
    rcases h3 q hm with ⟨hb, p0, hp0, he0, hl0, hlh0, hh0⟩
    by_cases hq : q = pid
    · subst hq
      have : p0 = p := by rw [hp0] at hp; exact Option.some.inj hp
      subst this
      exact ⟨hb, p', alGet_alSet_self q p' st.heap,
        hedge.trans he0, hlow ▸ hl0, by rw [hlow, hhigh]; exact hlh0, hhigh ▸ hh0⟩
    · exact ⟨hb, p0, (alGet_alSet_ne q pid p' st.heap hq) ▸ hp0, he0, hl0, hlh0, hh0⟩

/-- `#reserveNode` touches only the node-occupancy table: the heap, the
edge-reservation table, the snake table and the allocation counter are
returned unchanged on every path. -/
theorem reserveNode_shape (st : SnakeMan.State) (pid : Nat) (node : String)
    (r : Except String Bool) (st' : SnakeMan.State)
    (h : SnakeMan.reserveNode st pid node = (r, st')) :
    st'.heap = st.heap ∧ st'.reservedEdge = st.reservedEdge ∧
    st'.bySnake = st.bySnake ∧ st'.nextPart = st.nextPart := by
  unfold SnakeMan.reserveNode at h
  repeat' split at h
  all_goals (cases h; exact ⟨rfl, rfl, rfl, rfl⟩)

theorem unreserveNodeFinish_shape (st : SnakeMan.State) (pid : Nat) (node : String)
    (r : Except String Unit) (st' : SnakeMan.State)
    (h : SnakeMan.unreserveNodeFinish st pid node = (r, st')) :
    st'.heap = st.heap ∧ st'.reservedEdge = st.reservedEdge ∧
    st'.bySnake = st.bySnake ∧ st'.nextPart = st.nextPart := by
  unfold SnakeMan.unreserveNodeFinish at h
  repeat' split at h
  all_goals (cases h; exact ⟨rfl, rfl, rfl, rfl⟩)

/-- `#unreserveNode` touches only the heap (the cleared end field) and the
node-occupancy table. -/
theorem unreserveNode_shape (st : SnakeMan.State) (pid : Nat) (node : String)
    (r : Except String Unit) (st' : SnakeMan.State)
    (h : SnakeMan.unreserveNode st pid node = (r, st')) :
    st'.reservedEdge = st.reservedEdge ∧ st'.bySnake = st.bySnake ∧
    st'.nextPart = st.nextPart := by
  unfold SnakeMan.unreserveNode at h
  split at h
  · cases h; exact ⟨rfl, rfl, rfl⟩
  · split at h
    · cases h; exact ⟨rfl, rfl, rfl⟩
    · split at h
      · obtain ⟨_, h2, h3, h4⟩ := unreserveNodeFinish_shape _ _ _ _ _ h
        exact ⟨h2, h3, h4⟩
      · split at h
        · obtain ⟨_, h2, h3, h4⟩ := unreserveNodeFinish_shape _ _ _ _ _ h
          exact ⟨h2, h3, h4⟩
        · cases h; exact ⟨rfl, rfl, rfl⟩

/-- `#unreserve` touches only the edge-reservation table. -/
theorem unreserve_shape (st : SnakeMan.State) (pid : Nat)
    (r : Except String Unit) (st' : SnakeMan.State)
    (h : SnakeMan.unreserve st pid = (r, st')) :
    st'.heap = st.heap ∧ st'.bySnake = st.bySnake ∧ st'.nextPart = st.nextPart := by
  unfold SnakeMan.unreserve at h
  repeat' split at h
  all_goals (cases h; exact ⟨rfl, rfl, rfl⟩)

/-- `#reserve` touches only the edge-reservation table. -/
theorem reserve_shape (st : SnakeMan.State) (pid : Nat)
    (r : Except String Bool) (st' : SnakeMan.State)
    (h : SnakeMan.reserve st pid = (r, st')) :
    st'.heap = st.heap ∧ st'.bySnake = st.bySnake ∧
    st'.nextPart = st.nextPart ∧ st'.reservedNode = st.reservedNode := by
  unfold SnakeMan.reserve at h
  repeat' split at h
  all_goals (cases h; exact ⟨rfl, rfl, rfl, rfl⟩)

/-- A rejected `#reserve` (the `false` return) leaves the state untouched. -/
theorem reserve_false_unchanged (st : SnakeMan.State) (pid : Nat)
    (st' : SnakeMan.State)
    (h : SnakeMan.reserve st pid = (.ok false, st')) : st' = st := by
  unfold SnakeMan.reserve at h
  repeat' split at h
  all_goals (cases h <;> rfl)

/-- Recorded snake lengths only depend on the `#bySnake` table. -/
theorem snakeLen_congr (st st' : SnakeMan.State) (h : st'.bySnake = st.bySnake)
    (s : String) : SnakeMan.snakeLen st' s = SnakeMan.snakeLen st s := by
  unfold SnakeMan.snakeLen
  rw [h]

/-- The `data.length += δ` bookkeeping write, as seen through `snakeLen`. -/
theorem snakeLen_alUpdate_add (st : SnakeMan.State) (s : String) (δ : ℚ) :
    SnakeMan.snakeLen { st with bySnake := alUpdate s (fun x => { x with length := x.length + δ }) st.bySnake } s
      = (SnakeMan.snakeLen st s).map (fun L => L + δ) := by
  unfold SnakeMan.snakeLen
  simp only
  rw [alGet_alUpdate_self]
  cases alGet s st.bySnake <;> rfl

/-- The `data.length -= δ` bookkeeping write, as seen through `snakeLen`. -/
theorem snakeLen_alUpdate_sub (st : SnakeMan.State) (s : String) (δ : ℚ) :
    SnakeMan.snakeLen { st with bySnake := alUpdate s (fun x => { x with length := x.length - δ }) st.bySnake } s
      = (SnakeMan.snakeLen st s).map (fun L => L - δ) := by
  unfold SnakeMan.snakeLen
  simp only
  rw [alGet_alUpdate_self]
  cases alGet s st.bySnake <;> rfl

/-- Updating a snake part list does not change its recorded length. -/
theorem snakeLen_alUpdate_parts (st : SnakeMan.State) (s : String) (f : SnakeMan.Snake → List Nat) :
    SnakeMan.snakeLen { st with bySnake := alUpdate s (fun x => { x with parts := f x }) st.bySnake } s
      = SnakeMan.snakeLen st s := by
  unfold SnakeMan.snakeLen
  simp only
  rw [alGet_alUpdate_self]
  cases alGet s st.bySnake <;> rfl

/-- A part `#adjacentReservation` succeeds on is, on a well-formed state, a
good sub-interval of the unit edge. -/
theorem adjacentReservation_bounds (st : SnakeMan.State) (pid : Nat) (dir : Int)
    (part : SnakeMan.SnakePart) (adj : SnakeMan.Adjacent)
    (hwf : SnakeMan.WFE st) (hp : alGet pid st.heap = some part)
    (h : SnakeMan.adjacentReservation st pid dir = .ok adj) :
    0 ≤ part.low ∧ part.low ≤ part.high ∧ part.high ≤ 1 := by
  unfold SnakeMan.adjacentReservation at h
  simp only [hp] at h
  rcases hall : alGet part.edge st.reservedEdge with _ | all <;> simp only [hall] at h
  · exact absurd h (by simp)
  rcases hwf part.edge all hall with ⟨hnd, hpw, hgood⟩
  rcases jsIndexOf_spec all pid with hidx | ⟨hidx0, hidxlt, hidxget⟩
  · rw [hidx] at h
    exact absurd h (by simp)
  obtain ⟨hlt, hget⟩ := List.getElem?_eq_some_iff.mp hidxget
  have hpidmem : pid ∈ all := hget ▸ List.getElem_mem hlt
  obtain ⟨_, p0, hp0, hpedge, hl0, hlh0, hh0⟩ := hgood pid hpidmem
  have hp0' : p0 = part := by rw [hp0] at hp; exact Option.some.inj hp
  rw [hp0'] at hl0 hlh0 hh0
  exact ⟨hl0, hlh0, hh0⟩

/-- Core invariant-preservation step: rewriting one listed part to a new
extent that stays inside the gap its list position allows (every earlier
interval still ends before it, every later interval still begins after it)
keeps every per-edge reservation list well formed. -/
theorem WFE_set_extent_core (st : SnakeMan.State) (pid : Nat)
    (part p' : SnakeMan.SnakePart) (all : List Nat) (idx : Nat)
    (hwf : SnakeMan.WFE st) (hp : alGet pid st.heap = some part)
    (hall : alGet part.edge st.reservedEdge = some all)
    (hilt : idx < all.length) (higet : all[idx] = pid)
    (hedge : p'.edge = part.edge)
    (h1 : 0 ≤ p'.low) (h2 : p'.low ≤ p'.high) (h3 : p'.high ≤ 1)
    (h4 : ∀ i, (hi : i < all.length) → i < idx → SnakeMan.pHigh st all[i] ≤ p'.low)
    (h5 : ∀ j, (hj : j < all.length) → idx < j → p'.high ≤ SnakeMan.pLow st all[j]) :
    SnakeMan.WFE (SnakeMan.setPart st pid p') := by
  intro e l hl
  have hl' : alGet e st.reservedEdge = some l := hl
  obtain ⟨hnd', hpw', hgood'⟩ := hwf e l hl'
  have hLne : ∀ y, y ≠ pid →
      SnakeMan.pLow (SnakeMan.setPart st pid p') y = SnakeMan.pLow st y := by
    intro y hy
    simp [SnakeMan.pLow, SnakeMan.setPart, alGet_alSet_ne y pid p' st.heap hy]
  have hHne : ∀ y, y ≠ pid →
      SnakeMan.pHigh (SnakeMan.setPart st pid p') y = SnakeMan.pHigh st y := by
    intro y hy
    simp [SnakeMan.pHigh, SnakeMan.setPart, alGet_alSet_ne y pid p' st.heap hy]
  have hLp : SnakeMan.pLow (SnakeMan.setPart st pid p') pid = p'.low := by
    simp [SnakeMan.pLow, SnakeMan.setPart, alGet_alSet_self]
  have hHp : SnakeMan.pHigh (SnakeMan.setPart st pid p') pid = p'.high := by
    simp [SnakeMan.pHigh, SnakeMan.setPart, alGet_alSet_self]
  have hgoodT : ∀ y, y ≠ pid → SnakeMan.GoodPart st e y →
      SnakeMan.GoodPart (SnakeMan.setPart st pid p') e y := by
    intro y hy hg
    obtain ⟨hb, q, hq, rest⟩ := hg
    exact ⟨hb, q, (alGet_alSet_ne y pid p' st.heap hy) ▸ hq, rest⟩
  by_cases hmem : pid ∈ l
  · have he : e = part.edge := by
      obtain ⟨hb, q, hq, hqe, _⟩ := hgood' pid hmem
      rw [hp] at hq
      rw [← hqe]
      rw [Option.some.inj hq]
    subst he
    have hleq : l = all := by
      rw [hl'] at hall
      exact Option.some.inj hall
    subst hleq
    refine ⟨hnd', ?_, ?_⟩
    · rw [List.pairwise_iff_getElem]
      intro i j hi hj hij
      have hpwget := List.pairwise_iff_getElem.mp hpw'
      by_cases hie : i = idx
      · subst hie
        have hjne : l[j] ≠ pid := by
          intro hc
          have : j = i := hnd'.getElem_inj_iff.mp (hc.trans higet.symm)
          omega
        unfold SnakeMan.Before
        rw [higet, hHp, hLne _ hjne]
        exact h5 j hj hij
      · by_cases hje : j = idx
        · subst hje
          have hine : l[i] ≠ pid := by
            intro hc
            exact hie (hnd'.getElem_inj_iff.mp (hc.trans higet.symm))
          unfold SnakeMan.Before
          rw [higet, hLp, hHne _ hine]
          exact h4 i hi hij
        · have hine : l[i] ≠ pid := by
            intro hc
            exact hie (hnd'.getElem_inj_iff.mp (hc.trans higet.symm))
          have hjne : l[j] ≠ pid := by
            intro hc
            exact hje (hnd'.getElem_inj_iff.mp (hc.trans higet.symm))
          unfold SnakeMan.Before
          rw [hHne _ hine, hLne _ hjne]
          exact hpwget i j hi hj hij
    · intro y hy
      by_cases hye : y = pid
      · subst hye
        obtain ⟨hb, _⟩ := hgood' y hy
        exact ⟨hb, p', alGet_alSet_self y p' st.heap, hedge, h1, h2, h3⟩
      · exact hgoodT y hye (hgood' y hy)
  · refine ⟨hnd', ?_, ?_⟩
    · refine List.Pairwise.imp_of_mem ?_ hpw'
      intro a b ha hb hab
      have hane : a ≠ pid := fun hc => hmem (hc ▸ ha)
      have hbne : b ≠ pid := fun hc => hmem (hc ▸ hb)
      unfold SnakeMan.Before at hab ⊢
      rw [hHne _ hane, hLne _ hbne]
      exact hab
    · intro y hy
      have hyne : y ≠ pid := fun hc => hmem (hc ▸ hy)
      exact hgoodT y hyne (hgood' y hy)

/-- Growing a listed part toward direction `dir` by at most the free distance
`#adjacentReservation` reports preserves the reservation invariant. -/
theorem WFE_grow_within (st : SnakeMan.State) (pid : Nat) (dir : Int)
    (part p' : SnakeMan.SnakePart) (adj : SnakeMan.Adjacent)
    (hwf : SnakeMan.WFE st) (hp : alGet pid st.heap = some part)
    (ha : SnakeMan.adjacentReservation st pid dir = .ok adj)
    (hedge : p'.edge = part.edge)
    (hhigh : dir ≠ -1 → p'.low = part.low ∧ part.high ≤ p'.high ∧ p'.high ≤ part.high + adj.dist)
    (hlow : dir = -1 → p'.high = part.high ∧ part.low - adj.dist ≤ p'.low ∧ p'.low ≤ part.low) :
    SnakeMan.WFE (SnakeMan.setPart st pid p') := by
  have h := ha
  unfold SnakeMan.adjacentReservation at h
  simp only [hp] at h
  rcases hall : alGet part.edge st.reservedEdge with _ | all <;> simp only [hall] at h
  · exact absurd h (by simp)
  rcases hwf part.edge all hall with ⟨hnd, hpw, hgood⟩
  rcases jsIndexOf_spec all pid with hidx | ⟨hidx0, hidxlt, hidxget⟩
  · rw [hidx] at h
    exact absurd h (by simp)
  have hne : jsIndexOf all pid ≠ -1 := by omega
  rw [if_neg hne] at h
  obtain ⟨hlt, hget⟩ := List.getElem?_eq_some_iff.mp hidxget
  have hpidmem : pid ∈ all := hget ▸ List.getElem_mem hlt
  obtain ⟨hbnd, p0, hp0, hpedge, hl0, hlh0, hh0⟩ := hgood pid hpidmem
  have hp0' : p0 = part := by rw [hp0] at hp; exact Option.some.inj hp
  rw [hp0'] at hl0 hlh0 hh0
  have hplow : SnakeMan.pLow st pid = part.low := pLow_eq st pid part hp
  have hphigh : SnakeMan.pHigh st pid = part.high := pHigh_eq st pid part hp
  have hpwget := List.pairwise_iff_getElem.mp hpw
  have hLH : ∀ y ∈ all, SnakeMan.pLow st y ≤ SnakeMan.pHigh st y ∧
      0 ≤ SnakeMan.pLow st y ∧ SnakeMan.pHigh st y ≤ 1 := by
    intro y hy
    obtain ⟨_, q, hq, _, hql, hqlh, hqh⟩ := hgood y hy
    rw [pLow_eq st y q hq, pHigh_eq st y q hq]
    exact ⟨hqlh, hql, hqh⟩
  split at h
  · -- dir = -1: the part may move its low end down into the gap below.
    rename_i hdm
    obtain ⟨hq1, hq2, hq3⟩ := hlow hdm
    split at h
    · -- index = 0: the gap reaches the edge start.
      rename_i hiz
      have hadj := Except.ok.inj h
      have hdist : part.low = adj.dist := congrArg SnakeMan.Adjacent.dist hadj
      have hizn : (jsIndexOf all pid).toNat = 0 := by omega
      refine WFE_set_extent_core st pid part p' all _ hwf hp hall hlt hget hedge ?_ ?_ ?_ ?_ ?_
      · linarith
      · linarith
      · rw [hq1]; exact hh0
      · intro i hi hilt
        rw [hizn] at hilt
        exact absurd hilt (by omega)
      · intro j hj hjgt
        have hb := hpwget _ j hlt hj hjgt
        rw [hget] at hb
        unfold SnakeMan.Before at hb
        rw [hphigh] at hb
        rw [hq1]
        exact hb
    · -- index ≠ 0: the gap reaches the previous reservation's high end.
      rename_i hiz
      rcases hjg : jsGet all (jsIndexOf all pid - 1) with _ | otherId <;> simp only [hjg] at h
      · exact absurd h (by simp)
      have hadj := Except.ok.inj h
      have hdist : part.low - SnakeMan.pHigh st otherId = adj.dist :=
        congrArg SnakeMan.Adjacent.dist hadj
      have hidx1 : (0 : Int) ≤ jsIndexOf all pid - 1 := by omega
      rw [jsGet_eq_getElem all _ hidx1] at hjg
      obtain ⟨holt, hoget⟩ := List.getElem?_eq_some_iff.mp hjg
      have homem : otherId ∈ all := hoget ▸ List.getElem_mem holt
      obtain ⟨holh, hol0, hoh1⟩ := hLH otherId homem
      have hk : (jsIndexOf all pid - 1).toNat + 1 = (jsIndexOf all pid).toNat := by omega
      refine WFE_set_extent_core st pid part p' all _ hwf hp hall hlt hget hedge ?_ ?_ ?_ ?_ ?_
      · linarith
      · linarith
      · rw [hq1]; exact hh0
      · intro i hi hilt
        by_cases hik : i = (jsIndexOf all pid - 1).toNat
        · subst hik
          rw [hoget]
          linarith
        · have hib : i < (jsIndexOf all pid - 1).toNat := by omega
          have hb := hpwget i _ hi holt hib
          rw [hoget] at hb
          unfold SnakeMan.Before at hb
          linarith
      · intro j hj hjgt
        have hb := hpwget _ j hlt hj hjgt
        rw [hget] at hb
        unfold SnakeMan.Before at hb
        rw [hphigh] at hb
        rw [hq1]
        exact hb
  · -- dir ≠ -1: the part may move its high end up into the gap above.
    rename_i hdm
    obtain ⟨hq1, hq2, hq3⟩ := hhigh hdm
    rcases hjg : jsGet all (jsIndexOf all pid + 1) with _ | otherId <;> simp only [hjg] at h
    · -- no later reservation: the gap reaches the edge end.
      have hadj := Except.ok.inj h
      have hdist : 1 - part.high = adj.dist := congrArg SnakeMan.Adjacent.dist hadj
      have hidx1 : (0 : Int) ≤ jsIndexOf all pid + 1 := by omega
      rw [jsGet_eq_getElem all _ hidx1] at hjg
      have hlen : all.length ≤ (jsIndexOf all pid + 1).toNat := by
        by_contra hcl
        rw [List.getElem?_eq_getElem (by omega)] at hjg
        exact Option.noConfusion hjg
      refine WFE_set_extent_core st pid part p' all _ hwf hp hall hlt hget hedge ?_ ?_ ?_ ?_ ?_
      · rw [hq1]; exact hl0
      · linarith
      · linarith
      · intro i hi hilt
        have hb := hpwget i _ hi hlt hilt
        rw [hget] at hb
        unfold SnakeMan.Before at hb
        rw [hplow] at hb
        rw [hq1]
        exact hb
      · intro j hj hjgt
        exact absurd hjgt (by omega)
    · -- a later reservation: the gap reaches its low end.
      have hadj := Except.ok.inj h
      have hdist : SnakeMan.pLow st otherId - part.high = adj.dist :=
        congrArg SnakeMan.Adjacent.dist hadj
      have hidx1 : (0 : Int) ≤ jsIndexOf all pid + 1 := by omega
      rw [jsGet_eq_getElem all _ hidx1] at hjg
      obtain ⟨holt, hoget⟩ := List.getElem?_eq_some_iff.mp hjg
      have homem : otherId ∈ all := hoget ▸ List.getElem_mem holt
      obtain ⟨holh, hol0, hoh1⟩ := hLH otherId homem
      have hk : (jsIndexOf all pid).toNat + 1 = (jsIndexOf all pid + 1).toNat := by omega
      refine WFE_set_extent_core st pid part p' all _ hwf hp hall hlt hget hedge ?_ ?_ ?_ ?_ ?_
      · rw [hq1]; exact hl0
      · linarith
      · linarith
      · intro i hi hilt
        have hb := hpwget i _ hi hlt hilt
        rw [hget] at hb
        unfold SnakeMan.Before at hb
        rw [hplow] at hb
        rw [hq1]
        exact hb
      · intro j hj hjgt
        by_cases hjk : j = (jsIndexOf all pid + 1).toNat
        · subst hjk
          rw [hoget]
          linarith
        · have hjb : (jsIndexOf all pid + 1).toNat < j := by omega
          have hb := hpwget _ j holt hj hjb
          rw [hoget] at hb
          unfold SnakeMan.Before at hb
          linarith

/-- The first `#query` scan: when it does not reject, it returns the number
of leading reservations whose intervals end at or before `low`, and the
reservation at the returned index (if any) begins at or after `low`. -/
theorem queryScanLow_spec (st : SnakeMan.State) (low : ℚ) :
    ∀ (l : List Nat) (acc : Nat), SnakeMan.queryScanLow st low l acc ≠ -1 →
      ∃ k : Nat, SnakeMan.queryScanLow st low l acc = ((acc + k : Nat) : Int) ∧
        k ≤ l.length ∧
        (∀ m, (hml : m < l.length) → m < k → SnakeMan.pHigh st l[m] ≤ low) ∧
        (∀ hk : k < l.length, low ≤ SnakeMan.pLow st l[k]) := by
  intro l
  induction l with
  | nil =>
    intro acc h
    refine ⟨0, by simp [SnakeMan.queryScanLow], by simp, ?_, ?_⟩
    · intro m hml
      exact absurd hml (by simp)
    · intro hk
      exact absurd hk (by simp)
  | cons p rest ih =>
    intro acc h
    unfold SnakeMan.queryScanLow at h ⊢
    split at h
    · exact absurd rfl h
    · rename_i hnin
      split at h
      · rename_i hle
        rw [if_neg hnin, if_pos hle]
        refine ⟨0, by simp, by simp, ?_, ?_⟩
        · intro m hml hm0
          exact absurd hm0 (by omega)
        · intro hk
          simpa using hle
      · rename_i hgt
        rw [if_neg hnin, if_neg hgt]
        obtain ⟨k, heq, hklen, hbefore, hatk⟩ := ih (acc + 1) h
        refine ⟨k + 1, ?_, by simp; omega, ?_, ?_⟩
        · rw [heq]
          push_cast
          ring
        · intro m hml hmk
          match m with
          | 0 =>
            simp only [List.getElem_cons_zero]
            have hplt : SnakeMan.pLow st p < low := by
              by_contra hc
              exact hgt (le_of_not_lt hc)
            by_contra hc
            exact hnin ⟨hplt, lt_of_not_le hc⟩
          | n + 1 =>
            simp only [List.getElem_cons_succ]
            exact hbefore n (by simpa using hml) (by omega)
        · intro hk
          simp only [List.getElem_cons_succ]
          exact hatk (by simpa using hk)

/-- Inserting a fresh zero-width part through `#reserve` preserves the
reservation invariant, whatever the result: a rejection leaves the state
unchanged, and an accepted insertion lands exactly between its neighbours. -/
theorem WFE_reserve_fresh (st : SnakeMan.State) (pid : Nat) (q : SnakeMan.SnakePart)
    (hp : alGet pid st.heap = some q)
    (hzw : q.low = q.high) (h0 : 0 ≤ q.low) (h1 : q.high ≤ 1)
    (hbound : pid < st.nextPart)
    (hfresh : ∀ e l, alGet e st.reservedEdge = some l → pid ∉ l)
    (hwf : SnakeMan.WFE st)
    (r : Except String Bool) (st' : SnakeMan.State)
    (hrun : SnakeMan.reserve st pid = (r, st')) :
    SnakeMan.WFE st' := by
  unfold SnakeMan.reserve at hrun
  simp only [hp] at hrun
  rcases hex : alGet q.edge st.reservedEdge with _ | existing <;> simp only [hex] at hrun
  · -- first reservation on this edge
    cases hrun
    intro e l hl
    by_cases he : e = q.edge
    · subst he
      have hl2 : alGet q.edge (alSet q.edge [pid] st.reservedEdge) = some l := hl
      rw [alGet_alSet_self] at hl2
      cases Option.some.inj hl2
      refine ⟨List.nodup_singleton pid, List.pairwise_singleton _ _, ?_⟩
      intro y hy
      rw [List.mem_singleton] at hy
      subst hy
      exact ⟨hbound, q, hp, rfl, h0, le_of_eq hzw, h1⟩
    · have hl2 : alGet e (alSet q.edge [pid] st.reservedEdge) = some l := hl
      rw [alGet_alSet_ne e q.edge [pid] st.reservedEdge he] at hl2
      obtain ⟨a2, b2, c2⟩ := hwf e l hl2
      exact ⟨a2, b2, c2⟩
  · -- an existing list: analyze the query result
    split at hrun
    · cases hrun
      exact hwf
    · rename_i hqne
      cases hrun
      obtain ⟨hndE, hpwE, hgoodE⟩ := hwf q.edge existing hex
      have hLH : ∀ y ∈ existing, SnakeMan.pLow st y ≤ SnakeMan.pHigh st y ∧
          0 ≤ SnakeMan.pLow st y ∧ SnakeMan.pHigh st y ≤ 1 := by
        intro y hy
        obtain ⟨_, q2, hq2, _, hql, hqlh, hqh⟩ := hgoodE y hy
        rw [pLow_eq st y q2 hq2, pHigh_eq st y q2 hq2]
        exact ⟨hqlh, hql, hqh⟩
      have hqd : SnakeMan.query st q.edge q.low q.high = -1 ∨
          SnakeMan.query st q.edge q.low q.high = SnakeMan.queryScanLow st q.low existing 0 := by
        unfold SnakeMan.query
        rw [hex]
        simp only
        split
        · exact Or.inl rfl
        · split
          · exact Or.inl rfl
          · exact Or.inr rfl
      rcases hqd with hqd | hqd
      · exact absurd hqd hqne
      have hscanne : SnakeMan.queryScanLow st q.low existing 0 ≠ -1 := by
        intro hc
        rw [hc] at hqd
        exact hqne hqd
      obtain ⟨k, hkeq, hklen, hbeforek, hatk⟩ := queryScanLow_spec st q.low existing 0 hscanne
      have hqt : (SnakeMan.query st q.edge q.low q.high).toNat = k := by
        rw [hqd, hkeq]
        simp
      rw [hqt]
      have hchain : ∀ n, (hn : k + n < existing.length) →
          SnakeMan.pLow st existing[k] ≤ SnakeMan.pLow st existing[k + n] := by
        intro n hn
        rcases Nat.eq_zero_or_pos n with hn0 | hn0
        · subst hn0
          simp
        · have hklt : k < existing.length := by omega
          have hb := List.pairwise_iff_getElem.mp hpwE k (k + n) hklt hn (by omega)
          unfold SnakeMan.Before at hb
          have hx := (hLH existing[k] (List.getElem_mem hklt)).1
          linarith
      intro e l hl
      by_cases he : e = q.edge
      · subst he
        have hl2 : alGet q.edge (alSet q.edge (spliceInsert existing k pid) st.reservedEdge) = some l := hl
        rw [alGet_alSet_self] at hl2
        cases Option.some.inj hl2
        unfold spliceInsert
        have hpidni : pid ∉ existing := hfresh q.edge existing hex
        refine ⟨?_, ?_, ?_⟩
        · -- Nodup of the inserted list
          have hperm : (existing.take k ++ pid :: existing.drop k).Perm (pid :: existing) := by
            have h2 := @List.perm_middle _ pid (existing.take k) (existing.drop k)
            rw [List.take_append_drop] at h2
            exact h2
          exact hperm.nodup_iff.mpr (List.nodup_cons.mpr ⟨hpidni, hndE⟩)
        · -- Pairwise ordering of the inserted list
          rw [List.pairwise_append]
          refine ⟨hpwE.sublist (List.take_sublist k existing), ?_, ?_⟩
          · rw [List.pairwise_cons]
            refine ⟨?_, hpwE.sublist (List.drop_sublist k existing)⟩
            intro b hb
            obtain ⟨m, hm, hbm⟩ := List.mem_iff_getElem.mp hb
            have hmd : k + m < existing.length := by
              rw [List.length_drop] at hm
              omega
            have hbm2 : existing[k + m] = b := by
              rw [← hbm]
              exact (List.getElem_drop existing).symm
            have hklt : k < existing.length := by omega
            show SnakeMan.pHigh st pid ≤ SnakeMan.pLow st b
            rw [pHigh_eq st pid q hp]
            have hc := hchain m hmd
            rw [hbm2] at hc
            have hk2 := hatk hklt
            linarith
          · intro a ha b hb
            obtain ⟨m, hm, ham⟩ := List.mem_iff_getElem.mp ha
            have hmk : m < k := by
              rw [List.length_take] at hm
              omega
            have hmlen : m < existing.length := by
              rw [List.length_take] at hm
              omega
            have ham2 : existing[m] = a := by
              rw [← ham]
              exact (List.getElem_take existing).symm
            have hha : SnakeMan.pHigh st a ≤ q.low := by
              rw [← ham2]
              exact hbeforek m hmlen hmk
            rcases List.mem_cons.mp hb with hb | hb
            · show SnakeMan.pHigh st a ≤ SnakeMan.pLow st b
              rw [hb, pLow_eq st pid q hp]
              exact hha
            · obtain ⟨n, hn, hbn⟩ := List.mem_iff_getElem.mp hb
              have hnd2 : k + n < existing.length := by
                rw [List.length_drop] at hn
                omega
              have hbn2 : existing[k + n] = b := by
                rw [← hbn]
                exact (List.getElem_drop existing).symm
              have hklt : k < existing.length := by omega
              show SnakeMan.pHigh st a ≤ SnakeMan.pLow st b
              have hc := hchain n hnd2
              rw [hbn2] at hc
              have hk2 := hatk hklt
              linarith
        · -- every member is a good part
          intro y hy
          rcases List.mem_append.mp hy with hy | hy
          · obtain ⟨hb2, q2, hq2, hrest⟩ := hgoodE y (List.take_subset k existing hy)
            exact ⟨hb2, q2, hq2, hrest⟩
          · rcases List.mem_cons.mp hy with hy | hy
            · subst hy
              exact ⟨hbound, q, hp, rfl, h0, le_of_eq hzw, h1⟩
            · obtain ⟨hb2, q2, hq2, hrest⟩ := hgoodE y (List.drop_subset k existing hy)
              exact ⟨hb2, q2, hq2, hrest⟩
      · have hl2 : alGet e (alSet q.edge (spliceInsert existing k pid) st.reservedEdge) = some l := hl
        rw [alGet_alSet_ne e q.edge _ st.reservedEdge he] at hl2
        obtain ⟨a2, b2, c2⟩ := hwf e l hl2
        exact ⟨a2, b2, c2⟩

/-- Writing a part with a unit direction keeps every heap direction a unit. -/
theorem dirs_alSet (heap : List (Nat × SnakeMan.SnakePart)) (pid : Nat) (p' : SnakeMan.SnakePart)
    (hd : p'.dir = 1 ∨ p'.dir = -1)
    (h : ∀ y py, alGet y heap = some py → (py.dir = 1 ∨ py.dir = -1)) :
    ∀ y py, alGet y (alSet pid p' heap) = some py → (py.dir = 1 ∨ py.dir = -1) := by
  intro y py hy
  by_cases hyp : y = pid
  · subst hyp
    rw [alGet_alSet_self] at hy
    cases Option.some.inj hy
    exact hd
  · rw [alGet_alSet_ne y pid p' heap hyp] at hy
    exact h y py hy

/-- Allocating a brand-new part object (under a fresh id, as `#increaseSnake`
does before reserving it) preserves the reservation invariant: the new id is
not yet on any list. -/
theorem WFE_alloc (st : SnakeMan.State) (p2 : SnakeMan.SnakePart)
    (hwf : SnakeMan.WFE st) :
    SnakeMan.WFE { st with heap := alSet st.nextPart p2 st.heap, nextPart := st.nextPart + 1 } := by
  intro e l hl
  have hl2 : alGet e st.reservedEdge = some l := hl
  obtain ⟨a, b, c⟩ := hwf e l hl2
  have hne : ∀ y ∈ l, y ≠ st.nextPart := by
    intro y hy
    obtain ⟨hb2, _⟩ := c y hy
    omega
  have hLne : ∀ y, y ≠ st.nextPart →
      SnakeMan.pLow { st with heap := alSet st.nextPart p2 st.heap, nextPart := st.nextPart + 1 } y
        = SnakeMan.pLow st y := by
    intro y hy
    simp [SnakeMan.pLow, alGet_alSet_ne y st.nextPart p2 st.heap hy]
  have hHne : ∀ y, y ≠ st.nextPart →
      SnakeMan.pHigh { st with heap := alSet st.nextPart p2 st.heap, nextPart := st.nextPart + 1 } y
        = SnakeMan.pHigh st y := by
    intro y hy
    simp [SnakeMan.pHigh, alGet_alSet_ne y st.nextPart p2 st.heap hy]
  refine ⟨a, ?_, ?_⟩
  · refine List.Pairwise.imp_of_mem ?_ b
    intro x y hx hy hxy
    unfold SnakeMan.Before at hxy ⊢
    rw [hHne x (hne x hx), hLne y (hne y hy)]
    exact hxy
  · intro y hy
    obtain ⟨hb2, q2, hq2, hrest⟩ := c y hy
    refine ⟨show y < st.nextPart + 1 by omega, q2, ?_, hrest⟩
    show alGet y (alSet st.nextPart p2 st.heap) = some q2
    rw [alGet_alSet_ne y st.nextPart p2 st.heap (by omega)]
    exact hq2

/-- The hop part is a zero-width interval at the segment start, lying on the
segment's edge with the product direction. -/
theorem hopPart_fields (s2 : String) (e : Int) (v : String) (seg : SnakeMan.SegmentInfo) :
    (SnakeMan.hopPart s2 e v seg).low = seg.atv ∧
    (SnakeMan.hopPart s2 e v seg).high = seg.atv ∧
    (SnakeMan.hopPart s2 e v seg).dir = seg.dir * e ∧
    (SnakeMan.hopPart s2 e v seg).edge = seg.edge := by
  by_cases hsd : seg.dir = 1 <;> simp [SnakeMan.hopPart, hsd]

/-- `snakeLen` does not read the heap. -/
theorem snakeLen_setPart (st : SnakeMan.State) (pid : Nat) (p : SnakeMan.SnakePart)
    (s : String) : SnakeMan.snakeLen (SnakeMan.setPart st pid p) s = SnakeMan.snakeLen st s := rfl

/-- The post-node half of a growth step never shrinks the snake, provided the
continuation (the next loop iteration) never does. -/
theorem increaseTail_len (G : SnakeMan.GraphAPI) (s : String) (e : Int) (byv : ℚ)
    (hG : SnakeMan.Honest G) (he : e = 1 ∨ e = -1)
    (k : SnakeMan.State → ℚ → Except String ℚ × SnakeMan.State)
    (hk : ∀ st2 inc2 r2 st2', SnakeMan.WF st2 → inc2 ≤ byv →
        k st2 inc2 = (.ok r2, st2') →
        ∀ L, SnakeMan.snakeLen st2 s = some L →
          ∃ dL, 0 ≤ dL ∧ SnakeMan.snakeLen st2' s = some (L + dL))
    (st : SnakeMan.State) (inc' : ℚ) (wasR : Bool) (fromN : String)
    (nodeInDir : SnakeMan.AtNode) (r : ℚ) (st' : SnakeMan.State)
    (hwf : SnakeMan.WF st) (hinc : inc' ≤ byv)
    (hrun : SnakeMan.increaseTail G s e byv k st inc' wasR fromN nodeInDir = (.ok r, st')) :
    ∀ L, SnakeMan.snakeLen st s = some L →
      ∃ dL, 0 ≤ dL ∧ SnakeMan.snakeLen st' s = some (L + dL) := by
  unfold SnakeMan.increaseTail at hrun
  simp only [] at hrun
  split at hrun
  · -- the node was already occupied: stop, crediting the distance covered
    cases hrun
    intro L hL
    refine ⟨byv - inc', by linarith, ?_⟩
    rw [snakeLen_alUpdate_add, hL]
    rfl
  · split at hrun
    · exact absurd hrun (by simp)
    rename_i pairs hpairs
    split at hrun
    · -- nowhere to go: stop, crediting the distance covered
      cases hrun
      intro L hL
      refine ⟨byv - inc', by linarith, ?_⟩
      rw [snakeLen_alUpdate_add, hL]
      rfl
    · rename_i choice hchoice
      split at hrun
      · exact absurd hrun (by simp)
      rename_i seg hseg
      split at hrun
      · exact absurd hrun (by simp)
      rename_i w2 stA2 hrn2
      split at hrun
      · exact absurd hrun (by simp)
      rename_i w3 stE hres
      obtain ⟨hA2heap, hA2redge, hA2snake, hA2next⟩ := reserveNode_shape _ _ _ _ _ hrn2
      obtain ⟨hEheap, hEsnake, hEnext, hEnode⟩ := reserve_shape _ _ _ _ hres
      obtain ⟨hfl, hfh, hfd, hfe⟩ := hopPart_fields s e choice.via seg
      obtain ⟨hs0, hs1, hsd⟩ := hG.2.2 choice.via choice.toN seg hseg
      have hwfA : SnakeMan.WF { st with
          heap := alSet st.nextPart (SnakeMan.hopPart s e choice.via seg) st.heap,
          nextPart := st.nextPart + 1 } := by
        refine ⟨WFE_alloc st _ hwf.1, ?_⟩
        show ∀ y py, alGet y (alSet st.nextPart (SnakeMan.hopPart s e choice.via seg) st.heap) = some py → _
        refine dirs_alSet st.heap st.nextPart _ ?_ hwf.2
        rw [hfd]
        rcases hsd with h | h <;> rcases he with h2 | h2 <;> rw [h, h2] <;> norm_num
      have hwfA2 : SnakeMan.WF stA2 := by
        refine ⟨WFE_congr _ _ hA2heap hA2redge (le_of_eq hA2next.symm) hwfA.1, ?_⟩
        rw [hA2heap]
        exact hwfA.2
      have hfresh : ∀ e2 l, alGet e2 stA2.reservedEdge = some l → st.nextPart ∉ l := by
        intro e2 l hl hmem
        rw [hA2redge] at hl
        have hl2 : alGet e2 st.reservedEdge = some l := hl
        obtain ⟨hblt, _⟩ := (hwf.1 e2 l hl2).2.2 st.nextPart hmem
        omega
      have hp2 : alGet st.nextPart stA2.heap = some (SnakeMan.hopPart s e choice.via seg) := by
        rw [hA2heap]
        show alGet st.nextPart (alSet st.nextPart (SnakeMan.hopPart s e choice.via seg) st.heap) = some _
        exact alGet_alSet_self _ _ _
      have hwfeE : SnakeMan.WFE stE := by
        refine WFE_reserve_fresh stA2 st.nextPart (SnakeMan.hopPart s e choice.via seg)
          hp2 ?_ ?_ ?_ ?_ hfresh hwfA2.1 _ _ hres
        · rw [hfl, hfh]
        · rw [hfl]
          exact hs0
        · rw [hfh]
          exact hs1
        · rw [hA2next]
          show st.nextPart < st.nextPart + 1
          omega
      have hwfE : SnakeMan.WF stE := by
        refine ⟨hwfeE, ?_⟩
        rw [hEheap, hA2heap]
        exact hwfA.2
      have hwfD : SnakeMan.WF { stE with
          bySnake := alUpdate s (fun x => { x with parts :=
            if e = 1 then x.parts ++ [st.nextPart] else st.nextPart :: x.parts }) stE.bySnake } :=
        ⟨WFE_congr _ _ rfl rfl (le_refl _) hwfE.1, hwfE.2⟩
      have hslE : SnakeMan.snakeLen stE s = SnakeMan.snakeLen st s := by
        rw [snakeLen_congr stA2 stE hEsnake s, snakeLen_congr _ stA2 hA2snake s]
        rfl
      intro L hL
      refine hk _ _ _ _ hwfD hinc hrun L ?_
      rw [snakeLen_alUpdate_parts, hslE]
      exact hL

/-- The growth loop of `#increaseSnake` never shrinks the snake: on a
well-formed state with an honest graph, every successful run adds a
non-negative amount to the recorded length. -/
theorem increaseLoop_len_mono (G : SnakeMan.GraphAPI) (s : String) (e : Int) (byv : ℚ)
    (hG : SnakeMan.Honest G) (he : e = 1 ∨ e = -1) (hb : 0 ≤ byv) :
    ∀ (fuel : Nat) (st : SnakeMan.State) (inc : ℚ) (r : ℚ) (st' : SnakeMan.State),
      SnakeMan.WF st → inc ≤ byv →
      SnakeMan.increaseLoop G s e byv fuel st inc = (.ok r, st') →
      ∀ L, SnakeMan.snakeLen st s = some L →
        ∃ dL, 0 ≤ dL ∧ SnakeMan.snakeLen st' s = some (L + dL) := by
  intro fuel
  induction fuel with
  | zero =>
    intro st inc r st' hwf hinc hrun
    exact absurd hrun (by simp [SnakeMan.increaseLoop])
  | succ fuel ih =>
    intro st inc r st' hwf hinc hrun
    unfold SnakeMan.increaseLoop at hrun
    simp only [] at hrun
    split at hrun
    · -- the request is exhausted: `data.length += by; return by`
      cases hrun
      intro L hL
      refine ⟨byv, hb, ?_⟩
      rw [snakeLen_alUpdate_add, hL]
      rfl
    · rename_i hgo
      have hinc0 : 0 < inc := not_not.mp hgo
      split at hrun
      · exact absurd hrun (by simp)
      rename_i data hdata
      split at hrun
      · exact absurd hrun (by simp)
      rename_i pid hpid
      split at hrun
      · exact absurd hrun (by simp)
      rename_i part hp
      split at hrun
      · exact absurd hrun (by simp)
      rename_i details hdet
      split at hrun
      · exact absurd hrun (by simp)
      rename_i nodeInDir hfn
      split at hrun
      · exact absurd hrun (by simp)
      rename_i adjacent haeq
      have hlen0 : 0 < details.length := hG.1 part.edge details hdet
      have hdist0 : 0 ≤ adjacent.dist :=
        adjacent_dist_nonneg st pid (e * part.dir) part adjacent hwf.1 hp haeq
      have hbounds := adjacentReservation_bounds st pid (e * part.dir) part adjacent hwf.1 hp haeq
      have hdirpm : e * part.dir = 1 ∨ e * part.dir = -1 := by
        rcases he with h1 | h1 <;> rcases hwf.2 pid part hp with h2 | h2 <;>
          rw [h1, h2] <;> norm_num
      rcases hdirpm with hed | hed
      · -- the end grows toward the high side
        simp only [hed, reduceIte] at hrun hfn haeq
        split at hrun
        · -- blocked by the neighbouring reservation
          rename_i hblk
          cases hrun
          intro L hL
          refine ⟨byv - (inc - adjacent.dist * details.length), ?_, ?_⟩
          · have hnn : 0 ≤ adjacent.dist * details.length :=
              mul_nonneg hdist0 (le_of_lt hlen0)
            linarith
          · rw [snakeLen_alUpdate_add, snakeLen_setPart, hL]
            rfl
        · rename_i hnb
          split at hrun
          · -- fits before the next node
            rename_i hfits
            cases hrun
            intro L hL
            refine ⟨byv, hb, ?_⟩
            rw [snakeLen_alUpdate_add, snakeLen_setPart, hL]
            rfl
          · rename_i hnf
            split at hrun
            · exact absurd hrun (by simp)
            rename_i wasR fromN st2 hstep
            have hfnH := hG.2.1 part.edge part.high 1 nodeInDir
              (by linarith [hbounds.1, hbounds.2.1])
              (by linarith [hbounds.2.1, hbounds.2.2]) hfn
            have hxa : part.high ≤ nodeInDir.atv := hfnH.2.2.1 rfl
            have hunitlt : |part.high - nodeInDir.atv| < inc / details.length := by
              rw [lt_div_iff hlen0]
              exact lt_of_not_le hnf
            have hgap : |part.high - nodeInDir.atv| ≤ adjacent.dist := by
              rw [min_eq_left (le_of_lt hunitlt)] at hnb
              exact le_of_not_lt hnb
            have hxd : nodeInDir.atv ≤ part.high + adjacent.dist := by
              rw [abs_of_nonpos (by linarith), neg_sub] at hgap
              linarith
            unfold SnakeMan.increaseStep1 at hstep
            rw [if_pos rfl] at hstep
            simp only [] at hstep
            split at hstep
            · exact absurd hstep (by simp)
            rename_i w stB hrn
            injection hstep with hA hB
            rw [← hB] at hrun
            have hwfe1 : SnakeMan.WFE (SnakeMan.setPart st pid
                { part with high := nodeInDir.atv, highNode := nodeInDir.node }) := by
              refine WFE_grow_within st pid 1 part _ adjacent hwf.1 hp haeq rfl ?_ ?_
              · intro _
                exact ⟨rfl, hxa, hxd⟩
              · intro hdm
                exact absurd hdm (by norm_num)
            have hdir1 : SnakeMan.SnakePart.dir
                { part with high := nodeInDir.atv, highNode := nodeInDir.node } = 1 ∨
                SnakeMan.SnakePart.dir
                { part with high := nodeInDir.atv, highNode := nodeInDir.node } = -1 :=
              hwf.2 pid part hp
            obtain ⟨hrheap, hredge, hrsnake, hrnext⟩ := reserveNode_shape _ _ _ _ _ hrn
            have hwf2 : SnakeMan.WF stB :=
              ⟨WFE_congr _ _ hrheap hredge (le_of_eq hrnext.symm) hwfe1,
               by rw [hrheap]; exact dirs_alSet st.heap pid _ hdir1 hwf.2⟩
            have hsl2 : SnakeMan.snakeLen stB s = SnakeMan.snakeLen st s := by
              rw [snakeLen_congr _ _ hrsnake]
              rfl
            have hdel0 : 0 ≤ |part.high - nodeInDir.atv| * details.length :=
              mul_nonneg (abs_nonneg _) (le_of_lt hlen0)
            intro L hL
            refine increaseTail_len G s e byv hG he _ ih stB
              (inc - |part.high - nodeInDir.atv| * details.length) wasR fromN nodeInDir r st'
              hwf2 (by linarith) hrun L ?_
            rw [hsl2]
            exact hL
      · -- the end grows toward the low side
        have hm1 : ¬ ((-1 : ℤ) = 1) := by norm_num
        simp only [hed, if_neg hm1] at hrun hfn haeq
        split at hrun
        · -- blocked by the neighbouring reservation
          rename_i hblk
          cases hrun
          intro L hL
          refine ⟨byv - (inc - adjacent.dist * details.length), ?_, ?_⟩
          · have hnn : 0 ≤ adjacent.dist * details.length :=
              mul_nonneg hdist0 (le_of_lt hlen0)
            linarith
          · rw [snakeLen_alUpdate_add, snakeLen_setPart, hL]
            rfl
        · rename_i hnb
          split at hrun
          · -- fits before the next node
            rename_i hfits
            cases hrun
            intro L hL
            refine ⟨byv, hb, ?_⟩
            rw [snakeLen_alUpdate_add, snakeLen_setPart, hL]
            rfl
          · rename_i hnf
            split at hrun
            · exact absurd hrun (by simp)
            rename_i wasR fromN st2 hstep
            have hfnH := hG.2.1 part.edge part.low (-1) nodeInDir
              (by linarith [hbounds.1])
              (by linarith [hbounds.2.1, hbounds.2.2]) hfn
            have hxa : nodeInDir.atv ≤ part.low := hfnH.2.2.2 rfl
            have hunitlt : |part.low - nodeInDir.atv| < inc / details.length := by
              rw [lt_div_iff hlen0]
              exact lt_of_not_le hnf
            have hgap : |part.low - nodeInDir.atv| ≤ adjacent.dist := by
              rw [min_eq_left (le_of_lt hunitlt)] at hnb
              exact le_of_not_lt hnb
            have hxd : part.low - adjacent.dist ≤ nodeInDir.atv := by
              rw [abs_of_nonneg (by linarith)] at hgap
              linarith
            unfold SnakeMan.increaseStep1 at hstep
            rw [if_neg (by norm_num)] at hstep
            simp only [] at hstep
            split at hstep
            · exact absurd hstep (by simp)
            rename_i w stB hrn
            injection hstep with hA hB
            rw [← hB] at hrun
            have hwfe1 : SnakeMan.WFE (SnakeMan.setPart st pid
                { part with low := nodeInDir.atv, lowNode := nodeInDir.node }) := by
              refine WFE_grow_within st pid (-1) part _ adjacent hwf.1 hp haeq rfl ?_ ?_
              · intro hdm
                exact absurd rfl hdm
              · intro _
                exact ⟨rfl, hxd, hxa⟩
            have hdir1 : SnakeMan.SnakePart.dir
                { part with low := nodeInDir.atv, lowNode := nodeInDir.node } = 1 ∨
                SnakeMan.SnakePart.dir
                { part with low := nodeInDir.atv, lowNode := nodeInDir.node } = -1 :=
              hwf.2 pid part hp
            obtain ⟨hrheap, hredge, hrsnake, hrnext⟩ := reserveNode_shape _ _ _ _ _ hrn
            have hwf2 : SnakeMan.WF stB :=
              ⟨WFE_congr _ _ hrheap hredge (le_of_eq hrnext.symm) hwfe1,
               by rw [hrheap]; exact dirs_alSet st.heap pid _ hdir1 hwf.2⟩
            have hsl2 : SnakeMan.snakeLen stB s = SnakeMan.snakeLen st s := by
              rw [snakeLen_congr _ _ hrsnake]
              rfl
            have hdel0 : 0 ≤ |part.low - nodeInDir.atv| * details.length :=
              mul_nonneg (abs_nonneg _) (le_of_lt hlen0)
            intro L hL
            refine increaseTail_len G s e byv hG he _ ih stB
              (inc - |part.low - nodeInDir.atv| * details.length) wasR fromN nodeInDir r st'
              hwf2 (by linarith) hrun L ?_
            rw [hsl2]
            exact hL

/-- The shrink loop never touches any recorded snake length: it only edits
part extents, reservations and part lists. -/
theorem reduceLoop_len (G : SnakeMan.GraphAPI) (s : String) (e : Int) :
    ∀ (fuel : Nat) (st : SnakeMan.State) (dec : ℚ) (u : Unit) (st' : SnakeMan.State),
      SnakeMan.reduceLoop G s e fuel st dec = (.ok u, st') →
      SnakeMan.snakeLen st' s = SnakeMan.snakeLen st s := by
  intro fuel
  induction fuel with
  | zero =>
    intro st dec u st' h
    exact absurd h (by simp [SnakeMan.reduceLoop])
  | succ fuel ih =>
    intro st dec u st' h
    unfold SnakeMan.reduceLoop at h
    simp only [] at h
    split at h
    · exact absurd h (by simp)
    rename_i data hdata
    split at h
    · cases h
      rfl
    · rename_i hgo
      split at h
      · exact absurd h (by simp)
      rename_i pid hpid
      split at h
      · exact absurd h (by simp)
      rename_i part hp
      split at h
      · exact absurd h (by simp)
      rename_i details hdet
      split at h
      · -- the decrement fits within the end part
        rename_i hfit
        split at h
        · -- high end
          split at h
          · exact absurd h (by simp)
          rename_i u2 stX hun
          cases h
          obtain ⟨_, hsnk, _⟩ := unreserveNode_shape _ _ _ _ _ hun
          rw [snakeLen_congr _ _ hsnk]
          rfl
        · -- low end
          split at h
          · exact absurd h (by simp)
          rename_i u2 stX hun
          cases h
          obtain ⟨_, hsnk, _⟩ := unreserveNode_shape _ _ _ _ _ hun
          rw [snakeLen_congr _ _ hsnk]
          rfl
      · -- the whole end part is consumed and spliced out
        split at h
        · exact absurd h (by simp)
        · split at h
          · exact absurd h (by simp)
          rename_i u2 st1 hu1
          split at h
          · exact absurd h (by simp)
          rename_i u3 st2 hu2
          split at h
          · exact absurd h (by simp)
          rename_i u4 st3 hu3
          have hrec := ih _ _ _ _ h
          rw [hrec, snakeLen_alUpdate_parts]
          obtain ⟨_, h3snk, _⟩ := unreserveNode_shape _ _ _ _ _ hu3
          rw [snakeLen_congr _ _ h3snk]
          obtain ⟨_, h2snk, _⟩ := unreserveNode_shape _ _ _ _ _ hu2
          rw [snakeLen_congr _ _ h2snk]
          obtain ⟨_, h1snk, _⟩ := unreserve_shape _ _ _ _ hu1
          rw [snakeLen_congr _ _ h1snk]

/-- `#reduceSnake` debits exactly the clamped request from the snake's
recorded length (unconditionally — even when the occupied intervals could
not shrink that far). -/
theorem reduceSnake_len (st : SnakeMan.State) (G : SnakeMan.GraphAPI) (s : String)
    (e : Int) (byv : ℚ) (u : Unit) (st' : SnakeMan.State)
    (h : SnakeMan.reduceSnake st G s e byv = (.ok u, st')) :
    ∀ L, SnakeMan.snakeLen st s = some L →
      SnakeMan.snakeLen st' s = some (L - max 0 byv) := by
  unfold SnakeMan.reduceSnake at h
  simp only [] at h
  split at h
  · exact absurd h (by simp)
  rename_i data hdata
  split at h
  · exact absurd h (by simp)
  rename_i u2 st1 hloop
  cases h
  intro L hL
  rw [snakeLen_alUpdate_sub, reduceLoop_len G s e _ st _ u2 st1 hloop, hL]
  rfl

/-- A negative `expand` (a shrink) changes the snake's recorded length by
exactly `by` — no state well-formedness is needed, because the debit is
unconditional. -/
theorem expand_len_neg (st : SnakeMan.State) (G : SnakeMan.GraphAPI) (fuel : Nat)
    (s : String) (e : Int) (byv : ℚ) (r : ℚ) (st' : SnakeMan.State)
    (hneg : byv < 0)
    (h : SnakeMan.expand st G fuel s e byv = (.ok r, st')) :
    ∀ L, SnakeMan.snakeLen st s = some L →
      SnakeMan.snakeLen st' s = some (L + byv) := by
  unfold SnakeMan.expand at h
  split at h
  · exact absurd h (by simp)
  rename_i data hdata
  split at h
  · exact absurd h (by simp)
  rename_i tu htu
  split at h
  · rename_i h0
    exact absurd h0 (ne_of_lt hneg)
  · rename_i h0
    split at h
    · rename_i hposx
      exact absurd hposx (not_lt.mpr (le_of_lt hneg))
    · split at h
      · exact absurd h (by simp)
      rename_i u2 st1 hred
      cases h
      intro L hL
      have hr := reduceSnake_len st G s e (-byv) u2 st' hred L hL
      rw [hr]
      congr 1
      rw [max_eq_right (by linarith : (0 : ℚ) ≤ -byv)]
      ring

/-- A non-negative `expand` (a growth request) never shrinks the snake. -/
theorem expand_len_mono (st : SnakeMan.State) (G : SnakeMan.GraphAPI) (fuel : Nat)
    (s : String) (e : Int) (byv : ℚ) (r : ℚ) (st' : SnakeMan.State)
    (hG : SnakeMan.Honest G) (hwf : SnakeMan.WF st) (he : e = 1 ∨ e = -1) (hpos : 0 ≤ byv)
    (h : SnakeMan.expand st G fuel s e byv = (.ok r, st')) :
    ∀ L, SnakeMan.snakeLen st s = some L →
      ∃ dL, 0 ≤ dL ∧ SnakeMan.snakeLen st' s = some (L + dL) := by
  unfold SnakeMan.expand at h
  split at h
  · exact absurd h (by simp)
  rename_i data hdata
  split at h
  · exact absurd h (by simp)
  rename_i tu htu
  split at h
  · cases h
    intro L hL
    exact ⟨0, le_refl 0, by rw [add_zero]; exact hL⟩
  · rename_i h0
    split at h
    · unfold SnakeMan.increaseSnake at h
      split at h
      · exact absurd h (by simp)
      rename_i data2 hdata2
      simp only [] at h
      intro L hL
      exact increaseLoop_len_mono G s e (max 0 byv) hG he (le_max_left 0 byv)
        fuel st (max 0 byv) r st' hwf (le_refl _) h L hL
    · rename_i hbn
      exfalso
      exact h0 (le_antisymm (not_lt.mp hbn) hpos)

/-- Every error produced by the double-connection preflight loop is either the
missing-edge error or the double-connection error. -/
theorem mergeCheck_some_msg (l : List String) :
    ∀ (st : Graph.State) (hB : List String) (m : String),
    Graph.mergeCheck st hB l = some m →
    m = "missing data" ∨ m = "can't connect edges twice" := by
  induction l with
  | nil => intro st hB m h; simp [Graph.mergeCheck] at h
  | cons e rest ih =>
    intro st hB m h
    unfold Graph.mergeCheck at h
    split at h
    · exact Or.inl (Option.some.inj h).symm
    · split at h
      · exact Or.inr (Option.some.inj h).symm
      · exact ih st hB m h

/-- Every error produced by the first destructive merge loop is the
missing-edge error. -/
theorem mergePhase1_some_msg (l : List String) :
    ∀ (removeId remainId : String) (st st' : Graph.State) (m : String),
    Graph.mergePhase1 removeId remainId st l = (st', some m) → m = "missing data" := by
  induction l with
  | nil => intro _ _ _ _ _ h; simp [Graph.mergePhase1] at h
  | cons e rest ih =>
    intro removeId remainId st st' m h
    unfold Graph.mergePhase1 at h
    split at h
    · injection h with h1 h2
      exact (Option.some.inj h2).symm
    · exact ih removeId remainId _ st' m h

/-- Every error produced by the sibling-set recomputation loop is the
missing-edge error. -/
theorem mergePhase3_some_msg (l : List String) :
    ∀ (remainHolder : List String) (st st' : Graph.State) (m : String),
    Graph.mergePhase3 remainHolder st l = (st', some m) → m = "missing data" := by
  induction l with
  | nil => intro _ _ _ _ h; simp [Graph.mergePhase3] at h
  | cons e rest ih =>
    intro remainHolder st st' m h
    unfold Graph.mergePhase3 at h
    split at h
    · injection h with h1 h2
      exact (Option.some.inj h2).symm
    · exact ih remainHolder _ st' m h

/-- Every error produced by the pairs-merge and sibling-recompute tail is the
missing-edge error. -/
theorem mergeTail_some_msg (remove remain : Graph.Node) (st1 st' : Graph.State)
    (m : String) (h : Graph.mergeTail remove remain st1 = (st', some m)) :
    m = "missing data" := by
  unfold Graph.mergeTail at h
  exact mergePhase3_some_msg _ _ _ _ _ h

/-- `mergeNode` leaves the state untouched on every error other than the
internal missing-edge error of the destructive phase. -/
theorem mergeNode_error_state (st : Graph.State) (a b : String) (m : String)
    (st' : Graph.State) (h : Graph.mergeNode st a b = (.error m, st'))
    (hm : m ≠ "missing data") : st' = st := by
  unfold Graph.mergeNode at h
  split at h
  · exact absurd (congrArg Prod.fst h) (by simp)
  · split at h
    · split at h
      · injection h with h1 h2
        exact h2.symm
      · split at h
        · split at h
          · injection h with h1 h2
            exact h2.symm
          · split at h
            · rename_i heq1
              injection h with h1 h2
              injection h1 with h3
              exact absurd (h3 ▸ mergePhase1_some_msg _ _ _ _ _ _ heq1) hm
            · split at h
              · rename_i heq3
                injection h with h1 h2
                injection h1 with h3
                exact absurd (h3 ▸ mergeTail_some_msg _ _ _ _ _ heq3) hm
              · exact absurd (congrArg Prod.fst h) (by simp)
    · injection h with h1 h2
      exact h2.symm
    · injection h with h1 h2
      exact h2.symm

/-- C5: `mergeNode` is atomic for its two structural checks: whenever it
fails with the same-edge error (`MergeOnSameEdge`) or the double-connection
error (`DoubleConnectionAfterMerge`), both of which are raised before any
mutation, the state it returns is exactly the state it was given; and in the
concrete scenario — `connect(a,b,10)`, `connect(a',b',10)`, `merge(a,a')` —
the call `merge(b,b')` fails with the double-connection error and leaves the
graph unchanged (the returned state equals the pre-call state). -/
theorem c5_merge_atomic :
    (∀ (st : Graph.State) (a b : String) (m : String) (st' : Graph.State),
      Graph.mergeNode st a b = (.error m, st') →
      (m = "nodes already touch same edge" ∨ m = "can't connect edges twice") →
      st' = st) ∧
    (∃ st1, c5Run = .ok (.error "can't connect edges twice", st1, st1)) := by
  constructor
  · intro st a b m st' h hm
    refine mergeNode_error_state st a b m st' h ?_
    rcases hm with h' | h' <;> subst h' <;> decide
  · exact ⟨_, rfl⟩

/-- Witness for C5: merging the two endpoints of a single edge fails the
same-edge check, and the theorem yields the unchanged state. -/
theorem c5_merge_atomic_witness :
    Graph.mergeNode c5St "a" "b" = (.error "nodes already touch same edge", c5St) ∧
      (Graph.mergeNode c5St "a" "b").2 = c5St := by
  exact ⟨rfl, c5_merge_atomic.1 c5St "a" "b" "nodes already touch same edge"
    (Graph.mergeNode c5St "a" "b").2 rfl (Or.inl rfl)⟩

/-- C6 counterexample: in the repo's own `basic merge` scenario the two merge
arguments have holder sets of equal size 1, and `mergeNode(N7, N5)` returns
`N5` — the second argument — not the first as the claim states. -/
theorem c6_counterexample_tie_keeps_second :
    c6Run = .ok ("N7", "N5", 1, 1, .ok "N5") ∧ "N5" ≠ "N7" :=
  ⟨rfl, by decide⟩

/-- C6 (amended): for every successful `mergeNode(a, b)` with `a ≠ b` the
surviving identifier is the id of the node whose holder set is strictly
larger, and when the two holder sets have equal size the second argument `b`
survives (the stable two-element sort leaves a tie in argument order and the
survivor is the latter element). -/
theorem c6_survivor_policy (st : Graph.State) (a b : String) (dataA dataB : Graph.Node)
    (r : String) (st' : Graph.State) (hne : a ≠ b)
    (hA : alGet a st.byNode = some dataA) (hB : alGet b st.byNode = some dataB)
    (hok : Graph.mergeNode st a b = (.ok r, st')) :
    r = if dataB.holder.length < dataA.holder.length then dataA.id else dataB.id := by
  unfold Graph.mergeNode at hok
  rw [if_neg hne, hA, hB] at hok
  split at hok <;>
    [skip; exact absurd (by assumption : some dataA = none) (by simp);
     exact absurd (by assumption : some dataB = none) (by simp)]
  rename_i dataA' dataB' heqA heqB
  rw [show dataA' = dataA from (Option.some.inj heqA).symm,
      show dataB' = dataB from (Option.some.inj heqB).symm] at hok
  split at hok
  · exact absurd (congrArg Prod.fst hok) (by simp)
  · split at hok
    rename_i remove remain heqSort
    split at hok
    · exact absurd (congrArg Prod.fst hok) (by simp)
    · split at hok
      · exact absurd (congrArg Prod.fst hok) (by simp)
      · split at hok
        · exact absurd (congrArg Prod.fst hok) (by simp)
        · injection hok with h1 h2
          injection h1 with h3
          subst h3
          unfold Graph.inlineLessSort at heqSort
          split at heqSort
          · rename_i hlt
            injection heqSort with hrm hrn
            have hlt' : dataA.holder.length < dataB.holder.length := of_decide_eq_true hlt
            rw [if_neg (by omega), ← hrn]
          · split at heqSort
            · rename_i hlt
              injection heqSort with hrm hrn
              have hlt' : dataB.holder.length < dataA.holder.length := of_decide_eq_true hlt
              rw [if_pos hlt', ← hrn]
            · rename_i hlt1 hlt2
              injection heqSort with hrm hrn
              have h2' : ¬ dataB.holder.length < dataA.holder.length := by
                intro hc
                exact absurd (decide_eq_true hc) (by exact fun hh => by simp [hh] at hlt2)
              rw [if_neg h2', ← hrn]

/-- Witness for C6 at the repo's `basic merge` state: both holder sets have
size 1 and the survivor is the second argument's id `N5`. -/
theorem c6_survivor_policy_witness :
    ("N7" : String) ≠ "N5" ∧
      alGet "N7" c6St.byNode = some { id := "N7", holder := ["E1"], pairs := [] } ∧
      alGet "N5" c6St.byNode = some { id := "N5", holder := ["E4"], pairs := [] } ∧
      ("N5" : String) = if (1 : Nat) < 1 then "N7" else "N5" := by
  refine ⟨by decide, rfl, rfl, ?_⟩
  exact c6_survivor_policy c6St "N7" "N5"
    { id := "N7", holder := ["E1"], pairs := [] }
    { id := "N5", holder := ["E4"], pairs := [] }
    "N5" _ (by decide) rfl rfl rfl

/-- C9 (code bug): `search` materializes its endpoints before entering the
`try` block whose `finally` runs the cleanup, so when materializing `to`
throws — here because its edge id does not exist — the vertex synthesized for
`from` at position 50 (`N4`) stays in the graph: the returned state still
holds it, with `E1` subdivided at 50, unlike the pre-call state.  The control
run with a valid `to` shows every path entered after materialization does
clean up: the vertex tables return exactly to their pre-call contents. -/
theorem c9_search_leaks_synthesized_vertex :
    c9Setup = .ok ("E1",
      { byEdge := [("E1", { id := "E1", length := 100, virt := [0, 100],
                            node := ["N2", "N3"], other := [] })],
        byNode := [("N2", { id := "N2", holder := ["E1"], pairs := [] }),
                   ("N3", { id := "N3", holder := ["E1"], pairs := [] })],
        nextId := 3 }) ∧
    c9Run = .ok (.error "missing data",
      { byEdge := [("E1", { id := "E1", length := 100, virt := [0, 50, 100],
                            node := ["N2", "N4", "N3"], other := [] })],
        byNode := [("N2", { id := "N2", holder := ["E1"], pairs := [] }),
                   ("N3", { id := "N3", holder := ["E1"], pairs := [] }),
                   ("N4", { id := "N4", holder := ["E1"], pairs := [] })],
        nextId := 4 }) ∧
    c9CleanRun = .ok (.ok (some
      [{ edge := "E1", atv := 100, node := "N3", priorNode := "N4", afterNode := "" },
       { edge := "E1", atv := 50, node := "", priorNode := "N2", afterNode := "N3" }]),
      { byEdge := [("E1", { id := "E1", length := 100, virt := [0, 100],
                            node := ["N2", "N3"], other := [] })],
        byNode := [("N2", { id := "N2", holder := ["E1"], pairs := [] }),
                   ("N3", { id := "N3", holder := ["E1"], pairs := [] })],
        nextId := 4 }) := by
  exact ⟨rfl, rfl, rfl⟩

/-- C3 (code bug): with `s1 = S2` occupying `[20, 40)` and `s2 = S1` occupying
`[60, 80)` on a 100-long edge, `grow(s1, +1, 100)` does extend `s1`'s interval
to exactly `[20, 60)` (unit `[1/5, 3/5)`) and adds exactly 20 to its length —
but it returns 80, the REMAINING requested distance, instead of the partial
distance 20 actually grown, contradicting the claim and the function's own
`@return the successful change amount` contract. -/
theorem c3_contention_stop_returns_remaining :
    c3Run = .ok (80,
      { heap := [(0, { snake := "S1", edge := "E", dir := 1, low := 3/5, lowNode := "",
                       high := 4/5, highNode := "" }),
                 (1, { snake := "S2", edge := "E", dir := 1, low := 1/5, lowNode := "",
                       high := 3/5, highNode := "" })],
        reservedEdge := [("E", [1, 0])],
        reservedNode := [],
        bySnake := [("S1", { id := "S1", length := 20, parts := [0] }),
                    ("S2", { id := "S2", length := 40, parts := [1] })],
        nextPart := 2, nextId := 2 }) ∧ (80 : ℚ) ≠ 20 := by
  refine ⟨by with_unfolding_all rfl, by norm_num⟩

/-- C8 counterexample: `#reserve` accepts a part whose interval `(0.2, 0.8)`
strictly contains the already reserved `[0.4, 0.5)` — `#query` only tests
whether the new interval's endpoints fall strictly inside an existing
interval — and the resulting list on the edge holds two overlapping
intervals, in neither order disjoint. -/
theorem c8_counterexample_containment_not_rejected :
    SnakeMan.reserve c8St 1 = (.ok true, c8After) ∧
      alGet "E" c8After.reservedEdge = some [1, 0] ∧
      ¬ SnakeMan.Before c8After 1 0 ∧ ¬ SnakeMan.Before c8After 0 1 := by
  refine ⟨by with_unfolding_all rfl, rfl, ?_, ?_⟩ <;>
    simp only [SnakeMan.Before, SnakeMan.pLow, SnakeMan.pHigh, c8After, alGet] <;> norm_num

/-- C7 (code bug): on an edge of length 100, `split(a, via, b, -30)` — which
the spec defines as a split at position `100 - 30 = 70` — is rejected: the
normalisation `along = length - along` turns `-30` into `130`, which the very
next range check refuses.  The same split addressed positively as
`split(a, via, b, 70)` succeeds and produces the two edges of lengths 70 and
30 the spec expects, isolating the fault to the sign of the normalisation. -/
theorem c7_negative_split_always_rejected :
    c7Split 100 30 = .error "cannot split along edge (130 / 100)" ∧
      (do
        let st ← c7Graph 100
        Graph2.split st "a" "via" "b" 70 : Except String Graph2.State) = .ok
      { byNode := [("a", { id := "a", conn := [("via", { length := 70, through := [] })] }),
                   ("b", { id := "b", conn := [("via", { length := 30, through := [] })] }),
                   ("via", { id := "via", conn := [("a", { length := 70, through := ["b"] }),
                             ("b", { length := 30, through := ["a"] })] })] } := by
  exact ⟨rfl, rfl⟩

/-- C10: `grow` and `shrink` reject a negative or non-integer `by` before any
state is mutated: they return the guard error and the state unchanged (and no
oracle invocation happens). -/
theorem c10_grow_shrink_reject_bad_by (st : GraphSimple.State) (r : String) (e : Int)
    (b : ℚ) (cb : Option (String → List String → String)) (h : b < 0 ∨ b.den ≠ 1) :
    GraphSimple.grow st r e b cb = (.error "must grow by +ve integer", st, []) ∧
      GraphSimple.shrink st r e b = (.error "must shrink by +ve integer", st) := by
  have hguard : b ≠ (jsToInt32 b : ℚ) ∨ b < 0 ∨ Int.sign e ≠ e := by
    rcases h with h | h
    · exact Or.inr (Or.inl h)
    · refine Or.inl ?_
      intro hb
      exact h (hb ▸ Rat.den_intCast (jsToInt32 b))
  constructor
  · unfold GraphSimple.grow
    rw [if_pos hguard]
  · unfold GraphSimple.shrink
    rw [if_pos hguard]

/-- Witness for C10 at the concrete inputs `by = -1` on the empty state. -/
theorem c10_grow_shrink_reject_bad_by_witness :
    ((-1 : ℚ) < 0 ∨ ((-1 : ℚ)).den ≠ 1) ∧
      (GraphSimple.grow GraphSimple.State.empty "s" 1 (-1) none =
        (.error "must grow by +ve integer", GraphSimple.State.empty, []) ∧
       GraphSimple.shrink GraphSimple.State.empty "s" 1 (-1) =
        (.error "must shrink by +ve integer", GraphSimple.State.empty)) :=
  ⟨Or.inl (by norm_num),
   c10_grow_shrink_reject_bad_by GraphSimple.State.empty "s" 1 (-1) none (Or.inl (by norm_num))⟩

/-- The scenario graph is honest: its single edge has positive length, its
node finder answers on the unit edge on the requested side, and it exposes no
segments. -/
theorem honest_lineGraph : SnakeMan.Honest lineGraph := by
  refine ⟨?_, ?_, ?_⟩
  · intro e d h
    unfold lineGraph at h
    simp only [] at h
    split at h
    · cases h
      norm_num
    · exact absurd h (by simp)
  · intro e x dir n hx0 hx1 h
    unfold lineGraph at h
    simp only [] at h
    split at h
    · split at h
      · rename_i hdir
        cases h
        refine ⟨by norm_num, by norm_num, fun _ => hx1, fun hd => ?_⟩
        exact absurd (hdir.symm.trans hd) (by norm_num)
      · rename_i hdir
        cases h
        exact ⟨by norm_num, by norm_num, fun hd => absurd hd hdir, fun _ => hx0⟩
    · exact absurd h (by simp)
  · intro a b seg h
    unfold lineGraph at h
    exact absurd h (by simp)

/-- The C4 witness state is well formed: `[0.2,0.4]` before `[0.6,0.8]` on the
single edge, both with direction 1. -/
theorem wf_c4WitnessState : SnakeMan.WF c4WitnessState := by
  constructor
  · intro e l hl
    unfold c4WitnessState at hl
    simp only [alGet] at hl
    split at hl
    · rename_i he
      cases Option.some.inj hl
      refine ⟨by decide, ?_, ?_⟩
      · refine List.Pairwise.cons ?_ (List.pairwise_singleton _ _)
        intro b hb
        rw [List.mem_singleton] at hb
        subst hb
        show SnakeMan.pHigh c4WitnessState 1 ≤ SnakeMan.pLow c4WitnessState 0
        norm_num [SnakeMan.pHigh, SnakeMan.pLow, alGet, c4WitnessState]
      · intro y hy
        subst he
        rcases List.mem_cons.mp hy with hy | hy
        · subst hy
          refine ⟨by norm_num [c4WitnessState],
            { snake := "S2", edge := "E", dir := 1, low := 2/10, lowNode := "", high := 4/10, highNode := "" },
            ?_, rfl, by norm_num, by norm_num, by norm_num⟩
          with_unfolding_all rfl
        · rw [List.mem_singleton] at hy
          subst hy
          refine ⟨by norm_num [c4WitnessState],
            { snake := "S1", edge := "E", dir := 1, low := 6/10, lowNode := "", high := 8/10, highNode := "" },
            ?_, rfl, by norm_num, by norm_num, by norm_num⟩
          with_unfolding_all rfl
    · exact absurd hl (by simp)
  · intro pid p hp
    unfold c4WitnessState at hp
    simp only [alGet] at hp
    split at hp
    · cases Option.some.inj hp
      left
      rfl
    · split at hp
      · cases Option.some.inj hp
        left
        rfl
      · exact Option.noConfusion hp

/-- The C8 witness state keeps the same two ordered reservations, plus the
unlisted zero-width part 2. -/
theorem wfe_c8WitnessState : SnakeMan.WFE c8WitnessState := by
  intro e l hl
  unfold c8WitnessState at hl
  simp only [alGet] at hl
  split at hl
  · rename_i he
    cases Option.some.inj hl
    refine ⟨by decide, ?_, ?_⟩
    · refine List.Pairwise.cons ?_ (List.pairwise_singleton _ _)
      intro b hb
      rw [List.mem_singleton] at hb
      subst hb
      show SnakeMan.pHigh c8WitnessState 1 ≤ SnakeMan.pLow c8WitnessState 0
      norm_num [SnakeMan.pHigh, SnakeMan.pLow, alGet, c8WitnessState]
    · intro y hy
      subst he
      rcases List.mem_cons.mp hy with hy | hy
      · subst hy
        refine ⟨by norm_num [c8WitnessState],
          { snake := "S2", edge := "E", dir := 1, low := 2/10, lowNode := "", high := 4/10, highNode := "" },
          ?_, rfl, by norm_num, by norm_num, by norm_num⟩
        with_unfolding_all rfl
      · rw [List.mem_singleton] at hy
        subst hy
        refine ⟨by norm_num [c8WitnessState],
          { snake := "S1", edge := "E", dir := 1, low := 6/10, lowNode := "", high := 8/10, highNode := "" },
          ?_, rfl, by norm_num, by norm_num, by norm_num⟩
        with_unfolding_all rfl
  · exact absurd hl (by simp)

/-- C4 (amended): `move(s, end, by)` is length-preserving for every
NON-NEGATIVE `by` on a well-formed state with an honest graph: whatever part
of the growth is achieved, the opposite end is shrunk by exactly the measured
length difference, restoring the length recorded before the call.  (For
negative `by` the claim fails: see the counterexample.) -/
theorem c4_move_length_preserving (G : SnakeMan.GraphAPI) (st : SnakeMan.State) (fuel : Nat)
    (s : String) (e : Int) (byv : ℚ) (r : ℚ) (st' : SnakeMan.State) (L : ℚ)
    (hG : SnakeMan.Honest G) (hwf : SnakeMan.WF st) (he : e = 1 ∨ e = -1) (hb : 0 ≤ byv)
    (hrun : SnakeMan.move st G fuel s e byv = (.ok r, st'))
    (hL : SnakeMan.snakeLen st s = some L) :
    SnakeMan.snakeLen st' s = some L := by
  unfold SnakeMan.move at hrun
  simp only [] at hrun
  split at hrun
  · exact absurd hrun (by simp)
  rename_i data hdata
  split at hrun
  · exact absurd hrun (by simp)
  rename_i r1 st1 hexp1
  split at hrun
  · exact absurd hrun (by simp)
  rename_i data1 hdata1
  split at hrun
  · exact absurd hrun (by simp)
  rename_i r2 st2 hexp2
  cases hrun
  have hdL : data.length = L := by
    unfold SnakeMan.snakeLen at hL
    rw [hdata] at hL
    exact Option.some.inj hL
  obtain ⟨d1, hd1nn, hsl1⟩ := expand_len_mono st G fuel s e byv r st1 hG hwf he hb hexp1 L hL
  have hdL1 : data1.length = L + d1 := by
    unfold SnakeMan.snakeLen at hsl1
    rw [hdata1] at hsl1
    exact Option.some.inj hsl1
  rcases eq_or_lt_of_le hd1nn with hz | hpos2
  · have harg : data.length - data1.length = 0 := by
      rw [hdL, hdL1, ← hz]
      ring
    rw [harg] at hexp2
    unfold SnakeMan.expand at hexp2
    split at hexp2
    · exact absurd hexp2 (by simp)
    rename_i dataX hdataX
    split at hexp2
    · exact absurd hexp2 (by simp)
    rename_i tu2 htu2
    rw [if_pos rfl] at hexp2
    cases hexp2
    rw [hsl1, ← hz, add_zero]
  · have harg : data.length - data1.length < 0 := by
      rw [hdL, hdL1]
      linarith
    have hfin := expand_len_neg st1 G fuel s (-e) (data.length - data1.length) r2 st' harg
      hexp2 (L + d1) hsl1
    rw [hfin, hdL, hdL1]
    congr 1
    ring

/-- C4 witness: on the well-formed two-snake state, `move(S2, +1, 5)` succeeds
(the snake slides from `[0.2,0.4]` to `[0.25,0.45]`) and its recorded length
stays exactly 20. -/
theorem c4_move_length_preserving_witness :
    SnakeMan.snakeLen (SnakeMan.move c4WitnessState lineGraph 10 "S2" 1 5).2 "S2" = some 20 :=
  c4_move_length_preserving lineGraph c4WitnessState 10 "S2" 1 5 5
    (SnakeMan.move c4WitnessState lineGraph 10 "S2" 1 5).2 20
    honest_lineGraph wf_c4WitnessState (Or.inl rfl) (by norm_num)
    (by with_unfolding_all rfl) (by with_unfolding_all rfl)

/-- C4 counterexample: with a blocker at `[0, 0.15]` and `S2` at `[0.2, 0.4]`
(length 20), `move(S2, +1, -10)` succeeds returning 10 but leaves the snake
with length 15: the head shrank by 10 but the tail could regrow only 5 before
hitting the blocker, so a negative `by` is NOT length-preserving. -/
theorem c4_counterexample_negative_move_shrinks :
    c4CounterRun = .ok (20, 15, 10) ∧ (15 : ℚ) ≠ 20 :=
  ⟨by with_unfolding_all rfl, by norm_num⟩

/-- C8 (amended): inserting a fresh ZERO-WIDTH part — the only kind the
engine's public operations ever insert (`add_snake`'s start part and the hop
parts of growth) — through `#reserve` preserves interval disjointness and the
sort-by-low-end order on every edge list, and a rejected insertion (`false`)
leaves the state unchanged.  (The overlap check itself only rejects an
interval whose endpoint falls strictly inside an existing one; a wide
interval strictly containing an existing reservation would be accepted — see
the counterexample.) -/
theorem c8_zero_width_insert_preserves_invariant (st : SnakeMan.State) (pid : Nat)
    (q : SnakeMan.SnakePart) (r : Except String Bool) (st' : SnakeMan.State)
    (hwf : SnakeMan.WFE st)
    (hp : alGet pid st.heap = some q) (hzw : q.low = q.high)
    (h0 : 0 ≤ q.low) (h1 : q.high ≤ 1) (hbound : pid < st.nextPart)
    (hfresh : ∀ e l, alGet e st.reservedEdge = some l → pid ∉ l)
    (hrun : SnakeMan.reserve st pid = (r, st')) :
    SnakeMan.WFE st' ∧ (r = .ok false → st' = st) := by
  refine ⟨WFE_reserve_fresh st pid q hp hzw h0 h1 hbound hfresh hwf r st' hrun, ?_⟩
  intro hr
  subst hr
  exact reserve_false_unchanged st pid st' hrun

/-- C8 witness: inserting the zero-width part 2 at `0.5` between the listed
reservations `[0.2,0.4]` and `[0.6,0.8]` keeps the edge list well formed. -/
theorem c8_zero_width_insert_preserves_invariant_witness :
    SnakeMan.WFE (SnakeMan.reserve c8WitnessState 2).2 ∧
      ((SnakeMan.reserve c8WitnessState 2).1 = .ok false →
        (SnakeMan.reserve c8WitnessState 2).2 = c8WitnessState) :=
  c8_zero_width_insert_preserves_invariant c8WitnessState 2
    { snake := "S3", edge := "E", dir := 1, low := 1/2, lowNode := "", high := 1/2, highNode := "" }
    (SnakeMan.reserve c8WitnessState 2).1 (SnakeMan.reserve c8WitnessState 2).2
    wfe_c8WitnessState (by with_unfolding_all rfl) rfl
    (show (0 : ℚ) ≤ 1/2 by norm_num) (show (1 : ℚ)/2 ≤ 1 by norm_num)
    (show 2 < 3 by norm_num)
    (by
      intro e l hl
      unfold c8WitnessState at hl
      simp only [alGet] at hl
      split at hl
      · cases Option.some.inj hl
        decide
      · exact absurd hl (by simp))
    rfl

end TG
